import Mathlib

/-!
# Visor: event classification and enrichment (`event.go`)

A shallow embedding of the watch/enrich pipeline of the registry:
the regular-expression table `eventPatterns`, the classifier and loader of
`enrichEvent`, `canonicalizeMetadata`, and the two watcher loops
`WatchEventRaw` and `WatchEvent`.

Go strings are modelled as Lean strings (sequences of code points).  The
regular expressions of the table all have the shape `^ seg seg ... $` where
a segment is a literal or a capture group `(class+)`; they are embedded as
data and run by a backtracking matcher that tries the longest repetition
first, which is the preference order of Go's `regexp` package.
-/

namespace Visor

/-! ## Regular expressions of the table -/

/-- One item of a bracket expression: a single character, a range `lo-hi`,
or the ASCII class `[:alnum:]`. -/
inductive ClassItem where
  | char (c : Char)
  | range (lo hi : Char)
  | alnum
  deriving DecidableEq, Repr

/-- Whether a character belongs to a bracket item (`[:alnum:]` is `[0-9A-Za-z]`). -/
def ClassItem.accepts : ClassItem → Char → Bool
  | .char c, x => x.toNat == c.toNat
  | .range lo hi, x => decide (lo.toNat ≤ x.toNat) && decide (x.toNat ≤ hi.toNat)
  | .alnum, x =>
      (decide (48 ≤ x.toNat) && decide (x.toNat ≤ 57)) ||
      (decide (65 ≤ x.toNat) && decide (x.toNat ≤ 90)) ||
      (decide (97 ≤ x.toNat) && decide (x.toNat ≤ 122))

/-- A bracket expression `[...]` is the list of its items. -/
abbrev CharClass := List ClassItem

/-- Membership of a character in a bracket expression. -/
def CharClass.accepts (cls : CharClass) (x : Char) : Bool :=
  cls.any (fun it => it.accepts x)

/-- A segment of a pattern: literal text, or a capture group `(cls+)`. -/
inductive Seg where
  | lit (s : String)
  | cap (cls : CharClass)
  deriving DecidableEq, Repr

/-- A compiled pattern `^ seg ... $`, anchored at both ends. -/
abbrev Regexp := List Seg

/-- Strip a literal prefix from the input, if it is there. -/
def stripPrefix : List Char → List Char → Option (List Char)
  | [], inp => some inp
  | _ :: _, [] => none
  | p :: ps, c :: cs => if p = c then stripPrefix ps cs else none

/-- Anchored matching of a segment list against the whole input, returning
the captured groups in order.  A capture `(cls+)` tries every non-empty
prefix of the input made of class characters, the longest first, and keeps
the first one for which the rest of the pattern matches. -/
def matchSegs : List Seg → List Char → Option (List String)
  | [], inp => if inp.isEmpty then some [] else none
  | .lit s :: rest, inp =>
      match stripPrefix s.toList inp with
      | some r => matchSegs rest r
      | none => none
  | .cap cls :: rest, inp =>
      let run := inp.takeWhile cls.accepts
      (List.range run.length).reverse.findSome? fun k =>
        match matchSegs rest (inp.drop (k + 1)) with
        | some caps => some (String.mk (inp.take (k + 1)) :: caps)
        | none => none

/-- `re.FindStringSubmatch(s)`: `none` when there is no match, otherwise the
whole match (index 0, here the whole string since the pattern is anchored)
followed by the captured groups. -/
def Regexp.FindStringSubmatch (re : Regexp) (s : String) : Option (List String) :=
  match matchSegs re s.toList with
  | some caps => some (s :: caps)
  | none => none

/-- The bracket expression `[-.[:alnum:]]` of `charPat`. -/
def charPat : CharClass := [.char '-', .char '.', .alnum]

/-- The bracket expression `[-0-9]` of the instance patterns. -/
def insIdPat : CharClass := [.char '-', .range '0' '9']

/-! ## Events -/

/-- EventData is used to represent information encoded in the file path. -/
structure EventData where
  App : Option String := none
  Instance : Option String := none
  Proc : Option String := none
  Revision : Option String := none
  Service : Option String := none
  deriving DecidableEq, Repr

/-- EventType is used to distinguish events. -/
inductive EventType where
  | EvAppReg
  | EvAppUnreg
  | EvRevReg
  | EvRevUnreg
  | EvProcReg
  | EvProcUnreg
  | EvProcAttrs
  | EvInsReg
  | EvInsUnreg
  | EvInsStart
  | EvInsFail
  | EvInsExit
  | EvInsLost
  | EvUnknown
  deriving DecidableEq, Repr

open EventType

/-- The string value of each event type constant. -/
def EventType.toString : EventType → String
  | EvAppReg => "app-register"
  | EvAppUnreg => "app-unregister"
  | EvRevReg => "rev-register"
  | EvRevUnreg => "rev-unregister"
  | EvProcReg => "proc-register"
  | EvProcUnreg => "proc-unregister"
  | EvProcAttrs => "proc-attrs"
  | EvInsReg => "instance-register"
  | EvInsUnreg => "instance-unregister"
  | EvInsStart => "instance-start"
  | EvInsFail => "instance-fail"
  | EvInsExit => "instance-exit"
  | EvInsLost => "instance-lost"
  | EvUnknown => "UNKNOWN"

/-- The kinds of path of the table. -/
inductive eventPath where
  | pathApp
  | pathRev
  | pathProc
  | pathProcAttrs
  | pathInsRegistered
  | pathInsStatus
  | pathInsStart
  | pathInsStop
  deriving DecidableEq, Repr

open eventPath

/-- The pattern table.  In the source it is a map, whose iteration order is
not specified; the entries are listed here in the order of the source text
and every use iterates over an arbitrary permutation of this list. -/
def eventPatterns : List (Regexp × eventPath) :=
  [ ([.lit "/apps/", .cap charPat, .lit "/registered"], pathApp),
    ([.lit "/apps/", .cap charPat, .lit "/revs/", .cap charPat, .lit "/registered"], pathRev),
    ([.lit "/apps/", .cap charPat, .lit "/procs/", .cap charPat, .lit "/registered"], pathProc),
    ([.lit "/apps/", .cap charPat, .lit "/procs/", .cap charPat, .lit "/attrs"], pathProcAttrs),
    ([.lit "/instances/", .cap insIdPat, .lit "/registered"], pathInsRegistered),
    ([.lit "/instances/", .cap insIdPat, .lit "/status"], pathInsStatus),
    ([.lit "/instances/", .cap insIdPat, .lit "/start"], pathInsStart),
    ([.lit "/instances/", .cap insIdPat, .lit "/stop"], pathInsStop) ]

/-- An order in which `range eventPatterns` may visit the entries of the map. -/
abbrev RangeOrder := { l : List (Regexp × eventPath) // l.Perm eventPatterns }

/-- The order of the source text. -/
def RangeOrder.source : RangeOrder := ⟨eventPatterns, List.Perm.refl _⟩

/-- A raw mutation as returned by the store's `Wait`: the changed path, the
new body, the revision, and the two flag tests `IsSet()` and `IsDel()`. -/
structure cp.Event where
  Path : String
  Body : String
  Rev : Int
  IsSet : Bool
  IsDel : Bool
  deriving DecidableEq, Repr

/-- Modelled from the spec: the status bodies `InsStatusRunning`,
`InsStatusExited`, `InsStatusFailed` and `InsStatusLost`, whose declarations
are not part of the sources at hand (`status` is one of pending, claimed,
running, exited, failed, lost, done). -/
def InsStatusRunning : String := "running"

/-- Modelled from the spec: see `InsStatusRunning`. -/
def InsStatusExited : String := "exited"

/-- Modelled from the spec: see `InsStatusRunning`. -/
def InsStatusFailed : String := "failed"

/-- Modelled from the spec: see `InsStatusRunning`. -/
def InsStatusLost : String := "lost"

/-! ## Library functions used by the enricher -/

/-- `unicode.IsSpace`: the White_Space code points. -/
def isSpace (c : Char) : Bool :=
  let n := c.toNat
  n == 9 || n == 10 || n == 11 || n == 12 || n == 13 || n == 32 ||
  n == 0x85 || n == 0xA0 || n == 0x1680 ||
  (decide (0x2000 ≤ n) && decide (n ≤ 0x200A)) ||
  n == 0x2028 || n == 0x2029 || n == 0x202F || n == 0x205F || n == 0x3000

/-- `strings.Fields`: the maximal runs of non-space characters. -/
def Fields (s : String) : List String :=
  ((s.toList.splitOnP isSpace).filter (fun f => !f.isEmpty)).map String.mk

/-- The two failure kinds of `strconv`. -/
inductive NumErrKind where
  | ErrSyntax
  | ErrRange
  deriving DecidableEq, Repr

/-- `strconv.ParseUint(s, 10, 64)` on the digits that remain after the sign:
a non-digit is a syntax error, a value above `2^64 - 1` a range error; the
scan stops at the first error. -/
def ParseUint.loop : Nat → List Char → Except NumErrKind Nat
  | n, [] => .ok n
  | n, c :: cs =>
      if decide (48 ≤ c.toNat) && decide (c.toNat ≤ 57) then
        if n ≥ (2 ^ 64 - 1) / 10 + 1 then .error .ErrRange
        else
          let n1 := n * 10 + (c.toNat - 48)
          if n1 > 2 ^ 64 - 1 then .error .ErrRange else ParseUint.loop n1 cs
      else .error .ErrSyntax

/-- `strconv.ParseUint(s, 10, 64)`. -/
def ParseUint (s : List Char) : Except NumErrKind Nat :=
  if s.isEmpty then .error .ErrSyntax else ParseUint.loop 0 s

/-- `strconv.ParseInt(s, 10, 64)`: an optional sign followed by decimal
digits, within the range of a signed 64-bit integer. -/
def ParseInt (s : String) : Except NumErrKind Int :=
  match s.toList with
  | [] => .error .ErrSyntax
  | c :: cs =>
      let neg := c = '-'
      let digits := if c = '+' ∨ c = '-' then cs else c :: cs
      match ParseUint digits with
      | .error e => .error e
      | .ok un =>
          if ¬ neg ∧ un ≥ 2 ^ 63 then .error .ErrRange
          else if neg ∧ un > 2 ^ 63 then .error .ErrRange
          else .ok (if neg then - (un : Int) else (un : Int))

/-! ## The registry behind the loaders -/

/-- The entity types and the loaders `getApp`, `getRevision`, `getProc` and
`getInstance`, which read the store at the snapshot of the given raw event.
Their declarations are not part of the sources at hand, so they are
parameters of the development: every result below holds for every registry. -/
structure Registry where
  App : Type
  Revision : Type
  Proc : Type
  Instance : Type
  Err : Type
  getApp : String → cp.Event → Except Err App
  getRevision : Option App → String → cp.Event → Except Err Revision
  getProc : Option App → String → cp.Event → Except Err Proc
  getInstance : Int → cp.Event → Except Err Instance

/-- The errors that travel through the enricher and the watchers. -/
inductive Error (E : Type) where
  | store (e : E)
  | num (input : String) (kind : NumErrKind)
  | canonicalizing (src : cp.Event) (err : Error E)

/-- A non-nil `cp.Snapshotable` held by `Event.Source`: a pointer to one of
the four entity kinds (the pointer itself may be nil). -/
inductive Snapshotable (R : Registry) where
  | app (p : Option R.App)
  | rev (p : Option R.Revision)
  | proc (p : Option R.Proc)
  | ins (p : Option R.Instance)

/-- An Event represents a change to a file in the registry (`Typ` is the
field `Type` of the source, a reserved word here). -/
structure Event (R : Registry) where
  Typ : EventType
  Body : String
  Source : Option (Snapshotable R)
  Path : EventData
  raw : cp.Event
  Rev : Int

/-! ## Classification and enrichment -/

/-- The body of the `switch ev` of `enrichEvent` for a pattern that matched
with submatches `m`, starting from `etype = EvUnknown` and an empty
`EventData`. -/
def classifyCase (ev : eventPath) (m : List String) (src : cp.Event) : EventType × EventData :=
  match ev with
  | pathApp =>
      ( if src.IsSet then EvAppReg else if src.IsDel then EvAppUnreg else EvUnknown,
        { App := some (m.getD 1 "") } )
  | pathRev =>
      ( if src.IsSet then EvRevReg else if src.IsDel then EvRevUnreg else EvUnknown,
        { App := some (m.getD 1 ""), Revision := some (m.getD 2 "") } )
  | pathProc =>
      ( if src.IsSet then EvProcReg else if src.IsDel then EvProcUnreg else EvUnknown,
        { App := some (m.getD 1 ""), Proc := some (m.getD 2 "") } )
  | pathProcAttrs =>
      ( if src.IsSet then EvProcAttrs else EvUnknown,
        { App := some (m.getD 1 ""), Proc := some (m.getD 2 "") } )
  | pathInsRegistered =>
      ( if src.IsSet then EvInsReg else if src.IsDel then EvInsUnreg else EvUnknown,
        { Instance := some (m.getD 1 "") } )
  | pathInsStart =>
      if !src.IsSet || src.Body == "" then (EvUnknown, {})
      else
        ( if (Fields src.Body).length > 1 then EvInsStart else EvUnknown,
          { Instance := some (m.getD 1 "") } )
  | pathInsStatus =>
      if !src.IsSet then (EvUnknown, { Instance := some (m.getD 1 "") })
      else
        ( if src.Body = InsStatusRunning then EvInsStart
          else if src.Body = InsStatusExited then EvInsExit
          else if src.Body = InsStatusFailed then EvInsFail
          else if src.Body = InsStatusLost then EvInsLost
          else EvUnknown,
          { Instance := some (m.getD 1 "") } )
  | pathInsStop => (EvUnknown, {})

/-- The loop `for re, ev := range eventPatterns` of `enrichEvent`: the first
pattern of the iteration order that matches the path decides, then the loop
is left. -/
def classify : List (Regexp × eventPath) → cp.Event → EventType × EventData
  | [], _ => (EvUnknown, {})
  | (re, ev) :: rest, src =>
      match re.FindStringSubmatch src.Path with
      | some m => classifyCase ev m src
      | none => classify rest src

/-- The `switch etype` that ends `canonicalizeMetadata`: which of the loaded
entities is the source; for the other types the source stays nil. -/
def selectSource (R : Registry) (etype : EventType) (app : Option R.App)
    (rev : Option R.Revision) (proc : Option R.Proc) (ins : Option R.Instance) :
    Option (Snapshotable R) :=
  match etype with
  | EvAppReg => some (.app app)
  | EvRevReg => some (.rev rev)
  | EvProcReg | EvProcAttrs => some (.proc proc)
  | EvInsReg | EvInsStart | EvInsFail | EvInsExit | EvInsLost => some (.ins ins)
  | _ => none

/-- The block `if uncanonicalized.App != nil` of `canonicalizeMetadata`. -/
def loadApp (R : Registry) (uncanonicalized : EventData) (s : cp.Event) :
    Except (Error R.Err) (Option R.App) :=
  match uncanonicalized.App with
  | some a =>
      match R.getApp a s with
      | .ok v => .ok (some v)
      | .error e => .error (.store e)
  | none => .ok none

/-- The block `if uncanonicalized.Revision != nil` of `canonicalizeMetadata`. -/
def loadRevision (R : Registry) (app : Option R.App) (uncanonicalized : EventData)
    (s : cp.Event) : Except (Error R.Err) (Option R.Revision) :=
  match uncanonicalized.Revision with
  | some r =>
      match R.getRevision app r s with
      | .ok v => .ok (some v)
      | .error e => .error (.store e)
  | none => .ok none

/-- The block `if uncanonicalized.Proc != nil` of `canonicalizeMetadata`. -/
def loadProc (R : Registry) (app : Option R.App) (uncanonicalized : EventData)
    (s : cp.Event) : Except (Error R.Err) (Option R.Proc) :=
  match uncanonicalized.Proc with
  | some p =>
      match R.getProc app p s with
      | .ok v => .ok (some v)
      | .error e => .error (.store e)
  | none => .ok none

/-- The block `if uncanonicalized.Instance != nil` of `canonicalizeMetadata`:
parse the id, then load the instance. -/
def loadInstance (R : Registry) (uncanonicalized : EventData) (s : cp.Event) :
    Except (Error R.Err) (Option R.Instance) :=
  match uncanonicalized.Instance with
  | some i =>
      match ParseInt i with
      | .error k => .error (.num i k)
      | .ok id =>
          match R.getInstance id s with
          | .ok v => .ok (some v)
          | .error e => .error (.store e)
  | none => .ok none

/-- Load the entities named by the path fields, in the order app, revision,
proc, instance, stopping at the first failure; the event type then selects
which of them is the source. -/
def canonicalizeMetadata (R : Registry) (etype : EventType) (uncanonicalized : EventData)
    (s : cp.Event) : Except (Error R.Err) (Option (Snapshotable R)) :=
  match loadApp R uncanonicalized s with
  | .error e => .error e
  | .ok app =>
  match loadRevision R app uncanonicalized s with
  | .error e => .error e
  | .ok rev =>
  match loadProc R app uncanonicalized s with
  | .error e => .error e
  | .ok proc =>
  match loadInstance R uncanonicalized s with
  | .error e => .error e
  | .ok ins => .ok (selectSource R etype app rev proc ins)

/-- Classify the raw mutation, load the source entity of a set mutation of
known type, and build the event. -/
def enrichEvent (R : Registry) (order : RangeOrder) (src : cp.Event) :
    Except (Error R.Err) (Event R) :=
  let c := classify order.val src
  let etype := c.1
  let uncanonicalized := c.2
  if etype ≠ EvUnknown ∧ src.IsSet = true then
    match canonicalizeMetadata R etype uncanonicalized src with
    | .error err => .error (.canonicalizing src err)
    | .ok canonicalized =>
        .ok { Typ := etype, Body := src.Body, Source := canonicalized,
              Path := uncanonicalized, raw := src, Rev := src.Rev }
  else
    .ok { Typ := etype, Body := src.Body, Source := none,
          Path := uncanonicalized, raw := src, Rev := src.Rev }

/-! ## The watchers -/

/-- One turn of a watcher loop as the environment decides it: the result of
`sp.Wait(globPlural)` and the order in which the pattern map is visited by
the call of `enrichEvent` of this turn. -/
structure Turn (R : Registry) where
  wait : Except R.Err cp.Event
  order : RangeOrder

/-- What a watcher has done when the turns at hand are used up: the events
sent to the listener, in order, and the error it returned, if it returned
(`none`: the loop is blocked in the next `Wait`). -/
structure Run (R : Registry) where
  delivered : List (Event R)
  err : Option (Error R.Err)

/-- WatchEventRaw watches for changes to the registry and sends them as
events to the listener. -/
def WatchEventRaw (R : Registry) : List (Turn R) → Run R
  | [] => { delivered := [], err := none }
  | t :: rest =>
      match t.wait with
      | .error e => { delivered := [], err := some (.store e) }
      | .ok ev =>
          match enrichEvent R t.order ev with
          | .error e => { delivered := [], err := some e }
          | .ok event =>
              let r := WatchEventRaw R rest
              { delivered := event :: r.delivered, err := r.err }

/-- WatchEvent is WatchEventRaw without the events of unknown type. -/
def WatchEvent (R : Registry) : List (Turn R) → Run R
  | [] => { delivered := [], err := none }
  | t :: rest =>
      match t.wait with
      | .error e => { delivered := [], err := some (.store e) }
      | .ok ev =>
          match enrichEvent R t.order ev with
          | .error e => { delivered := [], err := some e }
          | .ok event =>
              let r := WatchEvent R rest
              if event.Typ = EvUnknown then r
              else { delivered := event :: r.delivered, err := r.err }

/-! ## Vocabulary of the statements -/

/-- The mutations that the successive waits of a script return. -/
def mutations {R : Registry} (turns : List (Turn R)) : List cp.Event :=
  turns.filterMap fun t =>
    match t.wait with
    | .ok ev => some ev
    | .error _ => none

/-- A sequence of events with the events of type UNKNOWN removed. -/
def dropUnknown {R : Registry} (events : List (Event R)) : List (Event R) :=
  events.filter fun e => decide (e.Typ ≠ EvUnknown)

/-- In this turn the wait returns a mutation and its enrichment succeeds. -/
def Turn.Succeeds {R : Registry} (t : Turn R) : Prop :=
  ∃ ev e, t.wait = .ok ev ∧ enrichEvent R t.order ev = .ok e

/-- In this turn the watcher fails with `err`: the wait fails with it, or the
wait returns a mutation whose enrichment fails with it. -/
def Turn.FailsWith {R : Registry} (t : Turn R) (err : Error R.Err) : Prop :=
  (∃ e, t.wait = .error e ∧ err = .store e) ∨
  (∃ ev, t.wait = .ok ev ∧ enrichEvent R t.order ev = .error err)

/-- Every entity named by the path fields loads at the snapshot `s` (the id
of an instance parsing as a number first): `app`, `rev`, `proc` and `ins` are
the loaded entities, nil for the fields that the path does not name. -/
def Loaded (R : Registry) (d : EventData) (s : cp.Event) (app : Option R.App)
    (rev : Option R.Revision) (proc : Option R.Proc) (ins : Option R.Instance) : Prop :=
  (match d.App with
    | some a => ∃ v, R.getApp a s = .ok v ∧ app = some v
    | none => app = none) ∧
  (match d.Revision with
    | some r => ∃ v, R.getRevision app r s = .ok v ∧ rev = some v
    | none => rev = none) ∧
  (match d.Proc with
    | some p => ∃ v, R.getProc app p s = .ok v ∧ proc = some v
    | none => proc = none) ∧
  (match d.Instance with
    | some i => ∃ id v, ParseInt i = .ok id ∧ R.getInstance id s = .ok v ∧ ins = some v
    | none => ins = none)

/-! ## A sample registry -/

/-- A registry in which every entity loads: an app, a revision and a proc are
their names, an instance is its id. -/
@[reducible] def sampleRegistry : Registry :=
  { App := String, Revision := String, Proc := String, Instance := Int, Err := String,
    getApp := fun a _ => .ok a,
    getRevision := fun _ r _ => .ok r,
    getProc := fun _ p _ => .ok p,
    getInstance := fun i _ => .ok i }

/-- A registry in which no entity loads. -/
@[reducible] def brokenRegistry : Registry :=
  { App := String, Revision := String, Proc := String, Instance := Int, Err := String,
    getApp := fun _ _ => .error "connection lost",
    getRevision := fun _ _ _ => .error "connection lost",
    getProc := fun _ _ _ => .error "connection lost",
    getInstance := fun _ _ => .error "connection lost" }

/-- A set mutation. -/
def setMutation (path body : String) (rev : Int) : cp.Event :=
  { Path := path, Body := body, Rev := rev, IsSet := true, IsDel := false }

/-- A delete mutation. -/
def delMutation (path : String) (rev : Int) : cp.Event :=
  { Path := path, Body := "", Rev := rev, IsSet := false, IsDel := true }

/-- A script of three mutations: an app registration, an env leaf (outside
the table) and an instance unregistration. -/
def sampleScript : List (Turn sampleRegistry) :=
  [ { wait := .ok (setMutation "/apps/regcat/registered" "now" 5), order := RangeOrder.source },
    { wait := .ok (setMutation "/apps/regcat/env/KEY" "value" 6), order := RangeOrder.source },
    { wait := .ok (delMutation "/instances/7/registered" 7), order := RangeOrder.source } ]

/-- A turn in which the instance named by the path does not load: its id
`1-2` is read by the id pattern but is not a number. -/
def failingTurn : Turn sampleRegistry :=
  { wait := .ok (setMutation "/instances/1-2/registered" "regcat stable web default" 8),
    order := RangeOrder.source }

/-- A turn in which the wait itself fails. -/
def lostTurn : Turn sampleRegistry :=
  { wait := .error "connection lost", order := RangeOrder.source }

/-- The order of the source text read backwards. -/
def RangeOrder.reversed : RangeOrder := ⟨eventPatterns.reverse, List.reverse_perm _⟩

/-! ## Decimal numerals -/

/-- The number denoted by a string of decimal digits, read from the left. -/
def decimalValue (ds : List Char) : Nat :=
  ds.foldl (fun n c => n * 10 + (c.toNat - 48)) 0

/-- A decimal numeral of a positive 64-bit integer: a non-empty string of the
digits `0` to `9` whose value lies between `1` and `2^63 - 1`. -/
def IsPositiveInt64 (s : String) : Prop :=
  s.toList ≠ [] ∧ (∀ c ∈ s.toList, 48 ≤ c.toNat ∧ c.toNat ≤ 57) ∧
    0 < decimalValue s.toList ∧ decimalValue s.toList < 2 ^ 63

instance (s : String) : Decidable (IsPositiveInt64 s) := by
  unfold IsPositiveInt64
  infer_instance

/-! ## The client (`client.go`) -/

/-- The answers of the doozer connection to the two calls that `Client.Get`
makes: `conn.Rev()`, and `conn.Get(path, &rev)`, which returns the body and
the revision of the file. The connection is not part of the sources and is a
parameter: `E` is the type of its errors. -/
structure doozer.Conn (E : Type) where
  Rev : Except E Int
  Get : String → Int → Except E (String × Int)

/-- The errors that `Client.Get` returns: an error of the connection, or
`ErrKeyNotFound`. -/
inductive ClientError (E : Type) where
  | conn (e : E)
  /-- Modelled from the spec: the declaration of `ErrKeyNotFound` is not part
  of the sources at hand; it is the error kind `KeyNotFound` (a required path
  is absent at the read revision), a value of the registry that no connection
  returns. -/
  | ErrKeyNotFound
  deriving DecidableEq, Repr

/-- The client: its address, its connection, the root prefix and the last
revision it has stored. -/
structure Client (E : Type) where
  Addr : String
  conn : doozer.Conn E
  Root : String
  rev : Int

/-- What a call of `Client.Get` leaves: the returned value, the returned
error (`none` is nil) and the client after the call. -/
structure GetResult (E : Type) where
  value : String
  err : Option (ClientError E)
  client : Client E

/-- `Client.Get`: ask the connection for its revision, read the file at that
revision, fail with `ErrKeyNotFound` when the file revision is 0, otherwise
store the file revision and return the body. -/
def Client.Get {E : Type} (c : Client E) (path : String) : GetResult E :=
  match c.conn.Rev with
  | .error e => { value := "", err := some (.conn e), client := c }
  | .ok rev =>
      match c.conn.Get path rev with
      | .error e => { value := "", err := some (.conn e), client := c }
      | .ok (body, rev) =>
          if rev = 0 then { value := "", err := some .ErrKeyNotFound, client := c }
          else { value := body, err := none, client := { c with rev := rev } }

/-- A connection at revision 9 that holds one file, `/apps/regcat/stack`,
written at revision 5. -/
def sampleConn : doozer.Conn String :=
  { Rev := .ok 9,
    Get := fun path _ => if path = "/apps/regcat/stack" then .ok ("regcatstack", 5)
                         else .ok ("", 0) }

/-- A connection that has been closed. -/
def closedConn : doozer.Conn String :=
  { Rev := .error "connection closed",
    Get := fun _ _ => .error "connection closed" }

/-- A client of the sample connection whose stored revision is 3. -/
def sampleClient : Client String :=
  { Addr := "127.0.0.1:8046", conn := sampleConn, Root := "/visor", rev := 3 }

/-- A client of the closed connection whose stored revision is 3. -/
def closedClient : Client String :=
  { Addr := "127.0.0.1:8046", conn := closedConn, Root := "/visor", rev := 3 }

/-! ## Proof devices -/

/-- A single left-to-right pass: a capture takes the longest run of class
characters and never gives any of it back. -/
def matchGreedy : List Seg → List Char → Option (List String)
  | [], inp => if inp.isEmpty then some [] else none
  | .lit s :: rest, inp =>
      match stripPrefix s.toList inp with
      | some r => matchGreedy rest r
      | none => none
  | .cap cls :: rest, inp =>
      if (inp.takeWhile cls.accepts).isEmpty then none
      else
        match matchGreedy rest (inp.dropWhile cls.accepts) with
        | some caps => some (String.mk (inp.takeWhile cls.accepts) :: caps)
        | none => none

/-- Every capture group is followed by a literal whose first character is
outside the class of the group. -/
def unambiguous : List Seg → Bool
  | [] => true
  | .lit _ :: rest => unambiguous rest
  | .cap cls :: rest =>
      (match rest with
        | .lit s :: _ =>
            (match s.toList with
              | c :: _ => !cls.accepts c
              | [] => false)
        | _ => false) && unambiguous rest

/-- A syntactic test that two patterns cannot match the same input: they
agree segment by segment up to a pair of literals neither of which is a
prefix of the other, or one of them ends where the other goes on with a
non-empty literal. -/
def disjointSegs : List Seg → List Seg → Bool
  | .lit s :: p, .lit t :: q =>
      if s = t then disjointSegs p q
      else !(s.toList.isPrefixOf t.toList) && !(t.toList.isPrefixOf s.toList)
  | .cap c :: p, .cap d :: q => decide (c = d) && disjointSegs p q
  | _, _ => false

/-- The text matched by a pattern with the given captures. -/
def render : List Seg → List String → List Char
  | [], _ => []
  | .lit s :: rest, caps => s.toList ++ render rest caps
  | .cap _ :: rest, [] => render rest []
  | .cap _ :: rest, c :: caps => c.toList ++ render rest caps

/-- Each capture is a non-empty string over the class of its group, and
there are as many captures as groups. -/
def capsOk : List Seg → List String → Prop
  | [], caps => caps = []
  | .lit _ :: rest, caps => capsOk rest caps
  | .cap _ :: _, [] => False
  | .cap cls :: rest, c :: caps =>
      c.toList ≠ [] ∧ (∀ x ∈ c.toList, cls.accepts x = true) ∧ capsOk rest caps

/-- The identifier charset `[A-Za-z0-9.-]` of the specification. -/
def identChar (c : Char) : Bool :=
  (decide ('A' ≤ c) && decide (c ≤ 'Z')) || (decide ('a' ≤ c) && decide (c ≤ 'z')) ||
  (decide ('0' ≤ c) && decide (c ≤ '9')) || c == '.' || c == '-'

/-- A name of the identifier grammar: a non-empty string over `[A-Za-z0-9.-]`. -/
def IsName (s : String) : Prop := s.toList ≠ [] ∧ ∀ c ∈ s.toList, identChar c = true

instance (s : String) : Decidable (IsName s) := by
  unfold IsName
  infer_instance

/-- An instance id as the table reads it: a non-empty string over `[-0-9]`,
which covers the decimal form of every integer. -/
def IsInsId (s : String) : Prop := s.toList ≠ [] ∧ ∀ c ∈ s.toList, insIdPat.accepts c = true

instance (s : String) : Decidable (IsInsId s) := by
  unfold IsInsId
  infer_instance

/-! ## The matcher -/

theorem stripPrefix_append (p r : List Char) : stripPrefix p (p ++ r) = some r := by
  induction p with
  | nil => rfl
  | cons a p ih => simp [stripPrefix, ih]

theorem stripPrefix_eq_some {p inp r : List Char} (h : stripPrefix p inp = some r) :
    inp = p ++ r := by
  induction p generalizing inp with
  | nil => simp [stripPrefix] at h; simp [h]
  | cons a p ih =>
      cases inp with
      | nil => simp [stripPrefix] at h
      | cons c cs =>
          simp only [stripPrefix] at h
          split at h
          · next hac => subst hac; simp [ih h]
          · cases h

theorem findSome?_reverse_range {β : Type} (f : Nat → Option β) (n : Nat)
    (h : ∀ k, k + 1 < n → f k = none) :
    (List.range n).reverse.findSome? f = if n = 0 then none else f (n - 1) := by
  cases n with
  | zero => rfl
  | succ m =>
      have hrest : (List.range m).reverse.findSome? f = none := by
        rw [List.findSome?_eq_none_iff]
        intro x hx
        have hx' : x < m := by simpa using hx
        exact h x (by omega)
      rw [List.range_succ, List.reverse_append]
      simp only [List.reverse_cons, List.reverse_nil, List.nil_append, List.singleton_append,
        List.findSome?_cons, hrest]
      simp only [Nat.succ_ne_zero, if_false, Nat.add_sub_cancel]
      cases f m <;> rfl

theorem drop_length_takeWhile (p : Char → Bool) (l : List Char) :
    l.drop (l.takeWhile p).length = l.dropWhile p := by
  have h := congrArg (List.drop (l.takeWhile p).length) (List.takeWhile_append_dropWhile p l)
  rw [List.drop_left] at h
  exact h.symm

theorem take_length_takeWhile (p : Char → Bool) (l : List Char) :
    l.take (l.takeWhile p).length = l.takeWhile p := by
  have h := congrArg (List.take (l.takeWhile p).length) (List.takeWhile_append_dropWhile p l)
  rw [List.take_left] at h
  exact h.symm

theorem drop_in_run (p : Char → Bool) (l : List Char) (k : Nat)
    (hk : k < (l.takeWhile p).length) :
    ∃ x t, l.drop k = x :: t ∧ p x = true := by
  induction l generalizing k with
  | nil => simp at hk
  | cons a l ih =>
      by_cases ha : p a = true
      · rw [List.takeWhile_cons_of_pos ha] at hk
        cases k with
        | zero => exact ⟨a, l, rfl, ha⟩
        | succ k =>
            have hk' : k < (l.takeWhile p).length := by simpa using hk
            simpa using ih k hk'
      · rw [List.takeWhile_cons_of_neg ha] at hk
        simp at hk

theorem matchSegs_eq_matchGreedy (segs : List Seg) (hu : unambiguous segs = true)
    (inp : List Char) : matchSegs segs inp = matchGreedy segs inp := by
  induction segs generalizing inp with
  | nil => rfl
  | cons sg rest ih =>
      cases sg with
      | lit s =>
          have hu' : unambiguous rest = true := by simpa [unambiguous] using hu
          simp only [matchSegs, matchGreedy]
          cases stripPrefix s.toList inp with
          | none => rfl
          | some r => exact ih hu' r
      | cap cls =>
          simp only [unambiguous, Bool.and_eq_true] at hu
          obtain ⟨hhead, hu'⟩ := hu
          cases rest with
          | nil => simp at hhead
          | cons sg2 rest2 =>
              cases sg2 with
              | cap _ => simp at hhead
              | lit s =>
                  cases hs : s.data with
                  | nil =>
                      have hs' : s.toList = [] := hs
                      simp only [hs'] at hhead
                      cases hhead
                  | cons c cs =>
                      have hs' : s.toList = c :: cs := hs
                      have hc : cls.accepts c = false := by
                        simp only [hs'] at hhead
                        simpa using hhead
                      simp only [matchSegs, matchGreedy]
                      rw [findSome?_reverse_range]
                      · by_cases hn : (inp.takeWhile cls.accepts).length = 0
                        · have : inp.takeWhile cls.accepts = [] := List.length_eq_zero.mp hn
                          simp [this]
                        · have hne : inp.takeWhile cls.accepts ≠ [] := by
                            intro h0; exact hn (by simp [h0])
                          have h1 : (inp.takeWhile cls.accepts).length - 1 + 1
                              = (inp.takeWhile cls.accepts).length := by omega
                          have ih' := ih hu' (inp.dropWhile cls.accepts)
                          simp only [matchSegs, matchGreedy] at ih'
                          simp only [hn, if_false, h1, drop_length_takeWhile,
                            take_length_takeWhile, List.isEmpty_eq_true, hne, ih']
                      · intro k hk
                        obtain ⟨x, t, hx, hpx⟩ := drop_in_run cls.accepts inp (k + 1) hk
                        have hcx : c ≠ x := by
                          intro h; rw [h] at hc; rw [hc] at hpx; cases hpx
                        simp only [matchSegs, hs', hx, stripPrefix, hcx, if_false]

theorem matchGreedy_sound (segs : List Seg) (inp : List Char) (caps : List String)
    (h : matchGreedy segs inp = some caps) : inp = render segs caps ∧ capsOk segs caps := by
  induction segs generalizing inp caps with
  | nil =>
      simp only [matchGreedy] at h
      split at h
      · next he =>
          cases h
          exact ⟨by simpa using he, rfl⟩
      · cases h
  | cons sg rest ih =>
      cases sg with
      | lit s =>
          simp only [matchGreedy] at h
          cases hp : stripPrefix s.toList inp with
          | none => rw [hp] at h; cases h
          | some r =>
              rw [hp] at h
              obtain ⟨h1, h2⟩ := ih r caps h
              refine ⟨?_, h2⟩
              rw [stripPrefix_eq_some hp, render, ← h1]
      | cap cls =>
          simp only [matchGreedy] at h
          split at h
          · cases h
          · next hne =>
              cases hm : matchGreedy rest (inp.dropWhile cls.accepts) with
              | none => rw [hm] at h; cases h
              | some caps' =>
                  rw [hm] at h
                  cases h
                  obtain ⟨h1, h2⟩ := ih _ caps' hm
                  refine ⟨?_, ?_, ?_, h2⟩
                  · show inp = (inp.takeWhile cls.accepts) ++ render rest caps'
                    rw [← h1, List.takeWhile_append_dropWhile]
                  · show inp.takeWhile cls.accepts ≠ []
                    simpa using hne
                  · intro x hx
                    exact List.mem_takeWhile_imp hx

theorem disjointSegs_sound (p q : List Seg) (hd : disjointSegs p q = true) (inp : List Char)
    (cp cq : List String) (hp : matchGreedy p inp = some cp) (hq : matchGreedy q inp = some cq) :
    False := by
  induction p generalizing q inp cp cq with
  | nil => cases q <;> simp [disjointSegs] at hd
  | cons a p ih =>
      cases q with
      | nil => cases a <;> simp [disjointSegs] at hd
      | cons b q =>
          cases a with
          | lit s =>
              cases b with
              | cap _ => simp [disjointSegs] at hd
              | lit t =>
                  simp only [matchGreedy] at hp hq
                  cases hps : stripPrefix s.toList inp with
                  | none => rw [hps] at hp; cases hp
                  | some r =>
                  cases hqs : stripPrefix t.toList inp with
                  | none => rw [hqs] at hq; cases hq
                  | some r' =>
                      rw [hps] at hp
                      rw [hqs] at hq
                      simp only [disjointSegs] at hd
                      split at hd
                      · next hst =>
                          subst hst
                          rw [hps] at hqs
                          cases hqs
                          exact ih q hd r cp cq hp hq
                      · simp only [Bool.and_eq_true, Bool.not_eq_true'] at hd
                        have h1 : s.toList <+: inp := ⟨r, (stripPrefix_eq_some hps).symm⟩
                        have h2 : t.toList <+: inp := ⟨r', (stripPrefix_eq_some hqs).symm⟩
                        rcases List.prefix_or_prefix_of_prefix h1 h2 with h | h
                        · rw [← List.isPrefixOf_iff_prefix, hd.1] at h; cases h
                        · rw [← List.isPrefixOf_iff_prefix, hd.2] at h; cases h
          | cap c =>
              cases b with
              | lit _ => simp [disjointSegs] at hd
              | cap d =>
                  simp only [disjointSegs, Bool.and_eq_true, decide_eq_true_eq] at hd
                  obtain ⟨hcd, hd'⟩ := hd
                  subst hcd
                  simp only [matchGreedy] at hp hq
                  split at hp
                  · cases hp
                  · cases hmp : matchGreedy p (inp.dropWhile c.accepts) with
                    | none => rw [hmp] at hp; cases hp
                    | some cp' =>
                    cases hmq : matchGreedy q (inp.dropWhile c.accepts) with
                    | none => simp [hmq] at hq
                    | some cq' => exact ih q hd' _ cp' cq' hmp hmq

/-! ## The table -/

theorem eventPatterns_unambiguous :
    ∀ p ∈ eventPatterns, unambiguous p.1 = true := by decide

theorem eventPatterns_disjoint :
    ∀ p ∈ eventPatterns, ∀ q ∈ eventPatterns, p ≠ q → disjointSegs p.1 q.1 = true := by
  decide

theorem FindStringSubmatch_table (p : Regexp × eventPath) (hp : p ∈ eventPatterns) (s : String) :
    p.1.FindStringSubmatch s =
      match matchGreedy p.1 s.toList with
      | some caps => some (s :: caps)
      | none => none := by
  unfold Regexp.FindStringSubmatch
  rw [matchSegs_eq_matchGreedy p.1 (eventPatterns_unambiguous p hp)]

theorem match_unique (p q : Regexp × eventPath) (hp : p ∈ eventPatterns)
    (hq : q ∈ eventPatterns) (s : String) (m m' : List String)
    (h1 : p.1.FindStringSubmatch s = some m) (h2 : q.1.FindStringSubmatch s = some m') :
    p = q := by
  by_contra hne
  rw [FindStringSubmatch_table p hp] at h1
  rw [FindStringSubmatch_table q hq] at h2
  cases hm1 : matchGreedy p.1 s.toList with
  | none => rw [hm1] at h1; cases h1
  | some c1 =>
  cases hm2 : matchGreedy q.1 s.toList with
  | none => rw [hm2] at h2; cases h2
  | some c2 =>
      exact disjointSegs_sound p.1 q.1 (eventPatterns_disjoint p hp q hq hne) _ c1 c2 hm1 hm2

theorem classify_list_of_match (l : List (Regexp × eventPath))
    (hl : ∀ x ∈ l, x ∈ eventPatterns) (src : cp.Event) (p : Regexp × eventPath)
    (hp : p ∈ l) (m : List String) (hm : p.1.FindStringSubmatch src.Path = some m) :
    classify l src = classifyCase p.2 m src := by
  induction l with
  | nil => cases hp
  | cons x rest ih =>
      obtain ⟨re, ev⟩ := x
      simp only [classify]
      cases hx : re.FindStringSubmatch src.Path with
      | some m' =>
          have hxe : (re, ev) = p :=
            match_unique (re, ev) p (hl _ (List.mem_cons_self _ _))
              (hl _ hp) src.Path m' m hx hm
          subst hxe
          rw [hx] at hm
          cases hm
          rfl
      | none =>
          have hp' : p ∈ rest := by
            rcases List.mem_cons.mp hp with h | h
            · subst h
              rw [hx] at hm
              cases hm
            · exact h
          exact ih (fun y hy => hl y (List.mem_cons_of_mem _ hy)) hp'

theorem classify_list_of_no_match (l : List (Regexp × eventPath)) (src : cp.Event)
    (h : ∀ p ∈ l, p.1.FindStringSubmatch src.Path = none) :
    classify l src = (EvUnknown, {}) := by
  induction l with
  | nil => rfl
  | cons x rest ih =>
      obtain ⟨re, ev⟩ := x
      simp only [classify]
      rw [h (re, ev) (List.mem_cons_self _ _)]
      exact ih (fun y hy => h y (List.mem_cons_of_mem _ hy))

/-- Whatever the iteration order, the pattern of the table that matches the
path decides the classification. -/
theorem classify_of_match (order : RangeOrder) (src : cp.Event) (re : Regexp) (ev : eventPath)
    (hp : (re, ev) ∈ eventPatterns) (m : List String)
    (hm : re.FindStringSubmatch src.Path = some m) :
    classify order.val src = classifyCase ev m src :=
  classify_list_of_match order.val (fun _ hx => (order.property.mem_iff).mp hx) src (re, ev)
    ((order.property.mem_iff).mpr hp) m hm

/-- Whatever the iteration order, a path that no pattern matches is unknown. -/
theorem classify_of_no_match (order : RangeOrder) (src : cp.Event)
    (h : ∀ p ∈ eventPatterns, p.1.FindStringSubmatch src.Path = none) :
    classify order.val src = (EvUnknown, {}) :=
  classify_list_of_no_match order.val src
    (fun p hp => h p ((order.property.mem_iff).mp hp))

theorem classify_cases (order : RangeOrder) (src : cp.Event) :
    ((∀ p ∈ eventPatterns, p.1.FindStringSubmatch src.Path = none) ∧
        classify order.val src = (EvUnknown, {})) ∨
    (∃ p ∈ eventPatterns, ∃ m, p.1.FindStringSubmatch src.Path = some m ∧
        classify order.val src = classifyCase p.2 m src) := by
  by_cases h : ∀ p ∈ eventPatterns, p.1.FindStringSubmatch src.Path = none
  · exact Or.inl ⟨h, classify_of_no_match order src h⟩
  · right
    push_neg at h
    obtain ⟨p, hp, hne⟩ := h
    cases hm : p.1.FindStringSubmatch src.Path with
    | none => exact absurd hm hne
    | some m => exact ⟨p, hp, m, hm, classify_of_match order src p.1 p.2 hp m hm⟩

/-! ## Matching the paths of the table -/

theorem toList_append (s t : String) : (s ++ t).toList = s.toList ++ t.toList := rfl

theorem char_le_iff (a c : Char) : a ≤ c ↔ a.toNat ≤ c.toNat := by
  show a.val ≤ c.val ↔ _
  rw [UInt32.le_def]
  rfl

theorem char_beq_eq (a c : Char) : (c == a) = (c.toNat == a.toNat) := by
  by_cases h : c = a
  · subst h; simp
  · have : c.toNat ≠ a.toNat := by
      intro h'
      apply h
      apply Char.ext
      apply UInt32.ext
      exact h'
    simp [h, this]

/-- The class `[-.[:alnum:]]` of the code is the charset `[A-Za-z0-9.-]` of
the specification. -/
theorem charPat_accepts_eq (c : Char) : charPat.accepts c = identChar c := by
  have e1 : ('A' : Char).toNat = 65 := rfl
  have e2 : ('Z' : Char).toNat = 90 := rfl
  have e3 : ('a' : Char).toNat = 97 := rfl
  have e4 : ('z' : Char).toNat = 122 := rfl
  have e5 : ('0' : Char).toNat = 48 := rfl
  have e6 : ('9' : Char).toNat = 57 := rfl
  have e7 : ('.' : Char).toNat = 46 := rfl
  have e8 : ('-' : Char).toNat = 45 := rfl
  simp only [charPat, CharClass.accepts, List.any, ClassItem.accepts, identChar, char_le_iff,
    char_beq_eq, e1, e2, e3, e4, e5, e6, e7, e8, Bool.or_false]
  generalize c.toNat = n
  rw [Bool.eq_iff_iff]
  simp only [Bool.or_eq_true, Bool.and_eq_true, decide_eq_true_eq, beq_iff_eq]
  omega

theorem matchGreedy_one (P L A : String) (cls : CharClass) (c : Char) (l : List Char)
    (hL : L.toList = c :: l) (hc : cls.accepts c = false) (hne : A.toList ≠ [])
    (hA : ∀ x ∈ A.toList, cls.accepts x = true) :
    matchGreedy [.lit P, .cap cls, .lit L] (P ++ A ++ L).toList = some [A] := by
  have htw : (A.toList ++ L.toList).takeWhile cls.accepts = A.toList := by
    rw [List.takeWhile_append_of_pos hA, hL, List.takeWhile_cons_of_neg (by simp [hc])]
    simp
  have hdw : (A.toList ++ L.toList).dropWhile cls.accepts = L.toList := by
    rw [List.dropWhile_append_of_pos hA, hL, List.dropWhile_cons_of_neg (by simp [hc])]
  have hl : stripPrefix L.toList L.toList = some [] := by
    have := stripPrefix_append L.toList []
    simpa using this
  simp only [toList_append, List.append_assoc, matchGreedy, stripPrefix_append, htw, hdw, hl,
    List.isEmpty_eq_true, hne, if_false, List.isEmpty_nil, if_true]
  rfl

theorem matchGreedy_two (P M L A B : String) (cls cls2 : CharClass) (c d : Char)
    (m l : List Char)
    (hM : M.toList = c :: m) (hc : cls.accepts c = false)
    (hL : L.toList = d :: l) (hd : cls2.accepts d = false)
    (hneA : A.toList ≠ []) (hA : ∀ x ∈ A.toList, cls.accepts x = true)
    (hneB : B.toList ≠ []) (hB : ∀ x ∈ B.toList, cls2.accepts x = true) :
    matchGreedy [.lit P, .cap cls, .lit M, .cap cls2, .lit L] (P ++ A ++ M ++ B ++ L).toList
      = some [A, B] := by
  have htw : (A.toList ++ (M.toList ++ (B.toList ++ L.toList))).takeWhile cls.accepts
      = A.toList := by
    rw [List.takeWhile_append_of_pos hA, hM, List.cons_append,
      List.takeWhile_cons_of_neg (by simp [hc])]
    simp
  have hdw : (A.toList ++ (M.toList ++ (B.toList ++ L.toList))).dropWhile cls.accepts
      = M.toList ++ (B.toList ++ L.toList) := by
    rw [List.dropWhile_append_of_pos hA, hM, List.cons_append,
      List.dropWhile_cons_of_neg (by simp [hc])]
  have htw2 : (B.toList ++ L.toList).takeWhile cls2.accepts = B.toList := by
    rw [List.takeWhile_append_of_pos hB, hL, List.takeWhile_cons_of_neg (by simp [hd])]
    simp
  have hdw2 : (B.toList ++ L.toList).dropWhile cls2.accepts = L.toList := by
    rw [List.dropWhile_append_of_pos hB, hL, List.dropWhile_cons_of_neg (by simp [hd])]
  have hl : stripPrefix L.toList L.toList = some [] := by
    have := stripPrefix_append L.toList []
    simpa using this
  simp only [toList_append, List.append_assoc, matchGreedy, stripPrefix_append, htw, hdw, htw2,
    hdw2, hl, List.isEmpty_eq_true, hneA, hneB, if_false, List.isEmpty_nil, if_true]
  rfl

theorem classify_one (order : RangeOrder) (src : cp.Event) (P L A : String) (cls : CharClass)
    (ev : eventPath) (c : Char) (l : List Char)
    (hmem : ([.lit P, .cap cls, .lit L], ev) ∈ eventPatterns)
    (hL : L.toList = c :: l) (hc : cls.accepts c = false) (hne : A.toList ≠ [])
    (hA : ∀ x ∈ A.toList, cls.accepts x = true) (hpath : src.Path = P ++ A ++ L) :
    classify order.val src = classifyCase ev [src.Path, A] src := by
  apply classify_of_match order src _ ev hmem
  rw [FindStringSubmatch_table _ hmem, hpath]
  simp only [matchGreedy_one P L A cls c l hL hc hne hA]

theorem classify_two (order : RangeOrder) (src : cp.Event) (P M L A B : String)
    (cls cls2 : CharClass) (ev : eventPath) (c d : Char) (m l : List Char)
    (hmem : ([.lit P, .cap cls, .lit M, .cap cls2, .lit L], ev) ∈ eventPatterns)
    (hM : M.toList = c :: m) (hc : cls.accepts c = false)
    (hL : L.toList = d :: l) (hd : cls2.accepts d = false)
    (hneA : A.toList ≠ []) (hA : ∀ x ∈ A.toList, cls.accepts x = true)
    (hneB : B.toList ≠ []) (hB : ∀ x ∈ B.toList, cls2.accepts x = true)
    (hpath : src.Path = P ++ A ++ M ++ B ++ L) :
    classify order.val src = classifyCase ev [src.Path, A, B] src := by
  apply classify_of_match order src _ ev hmem
  rw [FindStringSubmatch_table _ hmem, hpath]
  simp only [matchGreedy_two P M L A B cls cls2 c d m l hM hc hL hd hneA hA hneB hB]

theorem IsName.accepts {s : String} (h : IsName s) :
    ∀ x ∈ s.toList, charPat.accepts x = true := by
  intro x hx
  rw [charPat_accepts_eq]
  exact h.2 x hx

theorem classify_app (order : RangeOrder) (src : cp.Event) (A : String) (hA : IsName A)
    (hpath : src.Path = "/apps/" ++ A ++ "/registered") :
    classify order.val src =
      (if src.IsSet then EvAppReg else if src.IsDel then EvAppUnreg else EvUnknown,
        { App := some A }) :=
  classify_one order src "/apps/" "/registered" A charPat pathApp '/' "registered".toList
    (by decide) rfl (by decide) hA.1 hA.accepts hpath

theorem classify_rev (order : RangeOrder) (src : cp.Event) (A B : String) (hA : IsName A)
    (hB : IsName B) (hpath : src.Path = "/apps/" ++ A ++ "/revs/" ++ B ++ "/registered") :
    classify order.val src =
      (if src.IsSet then EvRevReg else if src.IsDel then EvRevUnreg else EvUnknown,
        { App := some A, Revision := some B }) :=
  classify_two order src "/apps/" "/revs/" "/registered" A B charPat charPat pathRev '/' '/'
    "revs/".toList "registered".toList (by decide) rfl (by decide) rfl (by decide)
    hA.1 hA.accepts hB.1 hB.accepts hpath

theorem classify_proc (order : RangeOrder) (src : cp.Event) (A B : String) (hA : IsName A)
    (hB : IsName B) (hpath : src.Path = "/apps/" ++ A ++ "/procs/" ++ B ++ "/registered") :
    classify order.val src =
      (if src.IsSet then EvProcReg else if src.IsDel then EvProcUnreg else EvUnknown,
        { App := some A, Proc := some B }) :=
  classify_two order src "/apps/" "/procs/" "/registered" A B charPat charPat pathProc '/' '/'
    "procs/".toList "registered".toList (by decide) rfl (by decide) rfl (by decide)
    hA.1 hA.accepts hB.1 hB.accepts hpath

theorem classify_procAttrs (order : RangeOrder) (src : cp.Event) (A B : String)
    (hA : IsName A) (hB : IsName B)
    (hpath : src.Path = "/apps/" ++ A ++ "/procs/" ++ B ++ "/attrs") :
    classify order.val src =
      (if src.IsSet then EvProcAttrs else EvUnknown, { App := some A, Proc := some B }) :=
  classify_two order src "/apps/" "/procs/" "/attrs" A B charPat charPat pathProcAttrs '/' '/'
    "procs/".toList "attrs".toList (by decide) rfl (by decide) rfl (by decide)
    hA.1 hA.accepts hB.1 hB.accepts hpath

theorem classify_insRegistered (order : RangeOrder) (src : cp.Event) (I : String)
    (hI : IsInsId I) (hpath : src.Path = "/instances/" ++ I ++ "/registered") :
    classify order.val src =
      (if src.IsSet then EvInsReg else if src.IsDel then EvInsUnreg else EvUnknown,
        { Instance := some I }) :=
  classify_one order src "/instances/" "/registered" I insIdPat pathInsRegistered '/'
    "registered".toList (by decide) rfl (by decide) hI.1 hI.2 hpath

theorem classify_insStatus (order : RangeOrder) (src : cp.Event) (I : String)
    (hI : IsInsId I) (hpath : src.Path = "/instances/" ++ I ++ "/status") :
    classify order.val src = classifyCase pathInsStatus [src.Path, I] src :=
  classify_one order src "/instances/" "/status" I insIdPat pathInsStatus '/'
    "status".toList (by decide) rfl (by decide) hI.1 hI.2 hpath

theorem classify_insStart (order : RangeOrder) (src : cp.Event) (I : String)
    (hI : IsInsId I) (hpath : src.Path = "/instances/" ++ I ++ "/start") :
    classify order.val src = classifyCase pathInsStart [src.Path, I] src :=
  classify_one order src "/instances/" "/start" I insIdPat pathInsStart '/'
    "start".toList (by decide) rfl (by decide) hI.1 hI.2 hpath

theorem classify_insStop (order : RangeOrder) (src : cp.Event) (I : String)
    (hI : IsInsId I) (hpath : src.Path = "/instances/" ++ I ++ "/stop") :
    classify order.val src = (EvUnknown, {}) :=
  classify_one order src "/instances/" "/stop" I insIdPat pathInsStop '/'
    "stop".toList (by decide) rfl (by decide) hI.1 hI.2 hpath

/-! ## Enrichment in terms of the classification -/

theorem enrichEvent_set (R : Registry) (order : RangeOrder) (src : cp.Event)
    (t : EventType) (d : EventData) (c : Option (Snapshotable R))
    (hc : classify order.val src = (t, d)) (ht : t ≠ EvUnknown) (hset : src.IsSet = true)
    (hload : canonicalizeMetadata R t d src = .ok c) :
    enrichEvent R order src =
      .ok { Typ := t, Body := src.Body, Source := c, Path := d, raw := src, Rev := src.Rev } := by
  simp only [enrichEvent, hc, hset, ht, ne_eq, not_false_eq_true, and_self, if_true, hload]

theorem enrichEvent_set_error (R : Registry) (order : RangeOrder) (src : cp.Event)
    (t : EventType) (d : EventData) (e : Error R.Err)
    (hc : classify order.val src = (t, d)) (ht : t ≠ EvUnknown) (hset : src.IsSet = true)
    (hload : canonicalizeMetadata R t d src = .error e) :
    enrichEvent R order src = .error (.canonicalizing src e) := by
  simp only [enrichEvent, hc, hset, ht, ne_eq, not_false_eq_true, and_self, if_true, hload]

theorem enrichEvent_not_set (R : Registry) (order : RangeOrder) (src : cp.Event)
    (t : EventType) (d : EventData)
    (hc : classify order.val src = (t, d)) (hset : src.IsSet = false) :
    enrichEvent R order src =
      .ok { Typ := t, Body := src.Body, Source := none, Path := d, raw := src,
            Rev := src.Rev } := by
  simp [enrichEvent, hc, hset]

theorem enrichEvent_unknown (R : Registry) (order : RangeOrder) (src : cp.Event)
    (d : EventData) (hc : classify order.val src = (EvUnknown, d)) :
    enrichEvent R order src =
      .ok { Typ := EvUnknown, Body := src.Body, Source := none, Path := d, raw := src,
            Rev := src.Rev } := by
  simp [enrichEvent, hc]

/-! ## The `registered` leaves -/

/-- C1. For each entity kind among app, revision, proc and instance, a set
mutation on the `registered` leaf of the entity whose referenced entities load
is enriched to the event of type `<kind>-register`, and a delete mutation to
the event of type `<kind>-unregister`; the Path of the event holds exactly the
captured names (App; App and Revision; App and Proc; Instance), every other
field being nil.  App, revision and proc names are names of the identifier
grammar, the instance id is read by the id pattern of the table. -/
theorem enrichEvent_registered (R : Registry) (order : RangeOrder)
    (A Rv P I : String) (hA : IsName A) (hRv : IsName Rv) (hP : IsName P) (hI : IsInsId I) :
    (∀ src : cp.Event, src.Path = "/apps/" ++ A ++ "/registered" →
      (src.IsSet = true → ∀ a, R.getApp A src = .ok a →
        enrichEvent R order src =
          .ok { Typ := EvAppReg, Body := src.Body, Source := some (.app (some a)),
                Path := { App := some A, Instance := none, Proc := none, Revision := none,
                          Service := none },
                raw := src, Rev := src.Rev }) ∧
      (src.IsSet = false → src.IsDel = true →
        enrichEvent R order src =
          .ok { Typ := EvAppUnreg, Body := src.Body, Source := none,
                Path := { App := some A, Instance := none, Proc := none, Revision := none,
                          Service := none },
                raw := src, Rev := src.Rev })) ∧
    (∀ src : cp.Event, src.Path = "/apps/" ++ A ++ "/revs/" ++ Rv ++ "/registered" →
      (src.IsSet = true → ∀ a r, R.getApp A src = .ok a →
        R.getRevision (some a) Rv src = .ok r →
        enrichEvent R order src =
          .ok { Typ := EvRevReg, Body := src.Body, Source := some (.rev (some r)),
                Path := { App := some A, Instance := none, Proc := none, Revision := some Rv,
                          Service := none },
                raw := src, Rev := src.Rev }) ∧
      (src.IsSet = false → src.IsDel = true →
        enrichEvent R order src =
          .ok { Typ := EvRevUnreg, Body := src.Body, Source := none,
                Path := { App := some A, Instance := none, Proc := none, Revision := some Rv,
                          Service := none },
                raw := src, Rev := src.Rev })) ∧
    (∀ src : cp.Event, src.Path = "/apps/" ++ A ++ "/procs/" ++ P ++ "/registered" →
      (src.IsSet = true → ∀ a p, R.getApp A src = .ok a →
        R.getProc (some a) P src = .ok p →
        enrichEvent R order src =
          .ok { Typ := EvProcReg, Body := src.Body, Source := some (.proc (some p)),
                Path := { App := some A, Instance := none, Proc := some P, Revision := none,
                          Service := none },
                raw := src, Rev := src.Rev }) ∧
      (src.IsSet = false → src.IsDel = true →
        enrichEvent R order src =
          .ok { Typ := EvProcUnreg, Body := src.Body, Source := none,
                Path := { App := some A, Instance := none, Proc := some P, Revision := none,
                          Service := none },
                raw := src, Rev := src.Rev })) ∧
    (∀ src : cp.Event, src.Path = "/instances/" ++ I ++ "/registered" →
      (src.IsSet = true → ∀ id i, ParseInt I = .ok id → R.getInstance id src = .ok i →
        enrichEvent R order src =
          .ok { Typ := EvInsReg, Body := src.Body, Source := some (.ins (some i)),
                Path := { App := none, Instance := some I, Proc := none, Revision := none,
                          Service := none },
                raw := src, Rev := src.Rev }) ∧
      (src.IsSet = false → src.IsDel = true →
        enrichEvent R order src =
          .ok { Typ := EvInsUnreg, Body := src.Body, Source := none,
                Path := { App := none, Instance := some I, Proc := none, Revision := none,
                          Service := none },
                raw := src, Rev := src.Rev })) := by
  refine ⟨?_, ?_, ?_, ?_⟩
  · intro src hpath
    have hc := classify_app order src A hA hpath
    refine ⟨fun hset a ha => ?_, fun hset hdel => ?_⟩
    · simp only [hset, if_true] at hc
      exact enrichEvent_set R order src _ _ _ hc (by decide) hset
        (by simp [canonicalizeMetadata, loadApp, loadRevision, loadProc, loadInstance, selectSource, ha])
    · simp only [hset, hdel, if_true] at hc
      exact enrichEvent_not_set R order src _ _ hc hset
  · intro src hpath
    have hc := classify_rev order src A Rv hA hRv hpath
    refine ⟨fun hset a r ha hr => ?_, fun hset hdel => ?_⟩
    · simp only [hset, if_true] at hc
      exact enrichEvent_set R order src _ _ _ hc (by decide) hset
        (by simp [canonicalizeMetadata, loadApp, loadRevision, loadProc, loadInstance, selectSource, ha, hr])
    · simp only [hset, hdel, if_true] at hc
      exact enrichEvent_not_set R order src _ _ hc hset
  · intro src hpath
    have hc := classify_proc order src A P hA hP hpath
    refine ⟨fun hset a p ha hp => ?_, fun hset hdel => ?_⟩
    · simp only [hset, if_true] at hc
      exact enrichEvent_set R order src _ _ _ hc (by decide) hset
        (by simp [canonicalizeMetadata, loadApp, loadRevision, loadProc, loadInstance, selectSource, ha, hp])
    · simp only [hset, hdel, if_true] at hc
      exact enrichEvent_not_set R order src _ _ hc hset
  · intro src hpath
    have hc := classify_insRegistered order src I hI hpath
    refine ⟨fun hset id i hid hi => ?_, fun hset hdel => ?_⟩
    · simp only [hset, if_true] at hc
      exact enrichEvent_set R order src _ _ _ hc (by decide) hset
        (by simp [canonicalizeMetadata, loadApp, loadRevision, loadProc, loadInstance, selectSource, hid, hi])
    · simp only [hset, hdel, if_true] at hc
      exact enrichEvent_not_set R order src _ _ hc hset

theorem enrichEvent_registered_witness :
    (IsName "regcat" ∧ IsName "stable" ∧ IsName "web" ∧ IsInsId "7") ∧
    enrichEvent sampleRegistry RangeOrder.source (setMutation "/apps/regcat/registered" "now" 5) =
      .ok { Typ := EvAppReg, Body := "now", Source := some (.app (some "regcat")),
            Path := { App := some "regcat", Instance := none, Proc := none, Revision := none,
                      Service := none },
            raw := setMutation "/apps/regcat/registered" "now" 5, Rev := 5 } ∧
    enrichEvent sampleRegistry RangeOrder.source (delMutation "/apps/regcat/registered" 6) =
      .ok { Typ := EvAppUnreg, Body := "", Source := none,
            Path := { App := some "regcat", Instance := none, Proc := none, Revision := none,
                      Service := none },
            raw := delMutation "/apps/regcat/registered" 6, Rev := 6 } ∧
    enrichEvent sampleRegistry RangeOrder.source
        (setMutation "/apps/regcat/revs/stable/registered" "now" 7) =
      .ok { Typ := EvRevReg, Body := "now", Source := some (.rev (some "stable")),
            Path := { App := some "regcat", Instance := none, Proc := none,
                      Revision := some "stable", Service := none },
            raw := setMutation "/apps/regcat/revs/stable/registered" "now" 7, Rev := 7 } ∧
    enrichEvent sampleRegistry RangeOrder.source
        (delMutation "/apps/regcat/procs/web/registered" 8) =
      .ok { Typ := EvProcUnreg, Body := "", Source := none,
            Path := { App := some "regcat", Instance := none, Proc := some "web",
                      Revision := none, Service := none },
            raw := delMutation "/apps/regcat/procs/web/registered" 8, Rev := 8 } ∧
    enrichEvent sampleRegistry RangeOrder.source
        (setMutation "/instances/7/registered" "regcat stable web default" 9) =
      .ok { Typ := EvInsReg, Body := "regcat stable web default",
            Source := some (.ins (some 7)),
            Path := { App := none, Instance := some "7", Proc := none, Revision := none,
                      Service := none },
            raw := setMutation "/instances/7/registered" "regcat stable web default" 9,
            Rev := 9 } := by
  have h := enrichEvent_registered sampleRegistry RangeOrder.source "regcat" "stable" "web" "7"
    (by decide) (by decide) (by decide) (by decide)
  refine ⟨by decide, ?_, ?_, ?_, ?_, ?_⟩
  · exact (h.1 (setMutation "/apps/regcat/registered" "now" 5) rfl).1 rfl "regcat" rfl
  · exact (h.1 (delMutation "/apps/regcat/registered" 6) rfl).2 rfl rfl
  · exact (h.2.1 (setMutation "/apps/regcat/revs/stable/registered" "now" 7) rfl).1 rfl
      "regcat" "stable" rfl rfl
  · exact (h.2.2.1 (delMutation "/apps/regcat/procs/web/registered" 8) rfl).2 rfl rfl
  · exact (h.2.2.2 (setMutation "/instances/7/registered" "regcat stable web default" 9)
      rfl).1 rfl 7 7 rfl rfl

/-- What every event returned by the enricher carries. -/
theorem enrichEvent_ok_fields (R : Registry) (order : RangeOrder) (src : cp.Event)
    (ev : Event R) (h : enrichEvent R order src = .ok ev) :
    ev.Typ = (classify order.val src).1 ∧ ev.Path = (classify order.val src).2 ∧
      ev.Body = src.Body ∧ ev.Rev = src.Rev ∧ ev.raw = src := by
  unfold enrichEvent at h
  simp only at h
  split at h
  · split at h
    · cases h
    · cases h
      exact ⟨rfl, rfl, rfl, rfl, rfl⟩
  · cases h
    exact ⟨rfl, rfl, rfl, rfl, rfl⟩

theorem canonicalizeMetadata_ins (R : Registry) (t : EventType) (I : String) (src : cp.Event)
    (id : Int) (i : R.Instance) (hid : ParseInt I = .ok id) (hi : R.getInstance id src = .ok i)
    (ht : t = EvInsReg ∨ t = EvInsStart ∨ t = EvInsFail ∨ t = EvInsExit ∨ t = EvInsLost) :
    canonicalizeMetadata R t { Instance := some I } src = .ok (some (.ins (some i))) := by
  rcases ht with h | h | h | h | h <;> subst h <;>
    simp [canonicalizeMetadata, loadApp, loadRevision, loadProc, loadInstance, selectSource, hid, hi]

/-! ## The `status` and `start` leaves of an instance -/

/-- C2. On `/instances/<I>/status` a set mutation is typed by its body:
`running` gives instance-start, `exited` instance-exit, `failed` instance-fail,
`lost` instance-lost, in the sense that the classification yields that type,
every event the enricher returns has it, and the enricher does return such an
event, with the loaded instance as source, once the instance loads; every
other body of a set mutation, and every mutation that is not a set, gives an
event of type UNKNOWN without any load. -/
theorem enrichEvent_status (R : Registry) (order : RangeOrder) (src : cp.Event) (I : String)
    (hI : IsInsId I) (hpath : src.Path = "/instances/" ++ I ++ "/status") :
    (∀ body t, (body, t) ∈ [("running", EvInsStart), ("exited", EvInsExit),
          ("failed", EvInsFail), ("lost", EvInsLost)] →
        src.IsSet = true → src.Body = body →
        (classify order.val src).1 = t ∧
        (∀ ev, enrichEvent R order src = .ok ev → ev.Typ = t) ∧
        (∀ id i, ParseInt I = .ok id → R.getInstance id src = .ok i →
          enrichEvent R order src =
            .ok { Typ := t, Body := src.Body, Source := some (.ins (some i)),
                  Path := { App := none, Instance := some I, Proc := none, Revision := none,
                            Service := none },
                  raw := src, Rev := src.Rev })) ∧
    (src.IsSet = true → src.Body ∉ ["running", "exited", "failed", "lost"] →
        enrichEvent R order src =
          .ok { Typ := EvUnknown, Body := src.Body, Source := none,
                Path := { App := none, Instance := some I, Proc := none, Revision := none,
                          Service := none },
                raw := src, Rev := src.Rev }) ∧
    (src.IsSet = false →
        enrichEvent R order src =
          .ok { Typ := EvUnknown, Body := src.Body, Source := none,
                Path := { App := none, Instance := some I, Proc := none, Revision := none,
                          Service := none },
                raw := src, Rev := src.Rev }) := by
  have hc := classify_insStatus order src I hI hpath
  refine ⟨?_, ?_, ?_⟩
  · intro body t hmem hset hbody
    have hct : classify order.val src = (t, { Instance := some I }) := by
      rw [hc]
      simp only [List.mem_cons, Prod.mk.injEq, List.mem_singleton, List.not_mem_nil,
        or_false] at hmem
      rcases hmem with ⟨hb, ht⟩ | ⟨hb, ht⟩ | ⟨hb, ht⟩ | ⟨hb, ht⟩ <;>
        subst hb <;> subst ht <;>
        simp [classifyCase, hset, hbody, InsStatusRunning, InsStatusExited, InsStatusFailed,
          InsStatusLost]
    have htk : t = EvInsReg ∨ t = EvInsStart ∨ t = EvInsFail ∨ t = EvInsExit ∨ t = EvInsLost := by
      simp only [List.mem_cons, Prod.mk.injEq, List.mem_singleton, List.not_mem_nil,
        or_false] at hmem
      rcases hmem with ⟨_, ht⟩ | ⟨_, ht⟩ | ⟨_, ht⟩ | ⟨_, ht⟩ <;> subst ht <;> simp
    have htu : t ≠ EvUnknown := by
      rcases htk with h | h | h | h | h <;> subst h <;> decide
    refine ⟨by rw [hct], ?_, ?_⟩
    · intro ev hev
      rw [(enrichEvent_ok_fields R order src ev hev).1, hct]
    · intro id i hid hi
      exact enrichEvent_set R order src _ _ _ hct htu hset
        (canonicalizeMetadata_ins R t I src id i hid hi htk)
  · intro hset hbody
    simp only [List.mem_cons, List.mem_singleton, List.not_mem_nil, or_false, not_or] at hbody
    obtain ⟨h1, h2, h3, h4⟩ := hbody
    apply enrichEvent_unknown
    rw [hc]
    simp [classifyCase, hset, h1, h2, h3, h4, InsStatusRunning, InsStatusExited,
      InsStatusFailed, InsStatusLost]
  · intro hset
    apply enrichEvent_unknown
    rw [hc]
    simp [classifyCase, hset]

theorem enrichEvent_status_witness :
    IsInsId "12" ∧
    enrichEvent sampleRegistry RangeOrder.source (setMutation "/instances/12/status" "failed" 4) =
      .ok { Typ := EvInsFail, Body := "failed", Source := some (.ins (some 12)),
            Path := { App := none, Instance := some "12", Proc := none, Revision := none,
                      Service := none },
            raw := setMutation "/instances/12/status" "failed" 4, Rev := 4 } ∧
    enrichEvent brokenRegistry RangeOrder.source (setMutation "/instances/12/status" "pending" 5) =
      .ok { Typ := EvUnknown, Body := "pending", Source := none,
            Path := { App := none, Instance := some "12", Proc := none, Revision := none,
                      Service := none },
            raw := setMutation "/instances/12/status" "pending" 5, Rev := 5 } ∧
    enrichEvent brokenRegistry RangeOrder.source (delMutation "/instances/12/status" 6) =
      .ok { Typ := EvUnknown, Body := "", Source := none,
            Path := { App := none, Instance := some "12", Proc := none, Revision := none,
                      Service := none },
            raw := delMutation "/instances/12/status" 6, Rev := 6 } := by
  refine ⟨by decide, ?_, ?_, ?_⟩
  · exact ((enrichEvent_status sampleRegistry RangeOrder.source
      (setMutation "/instances/12/status" "failed" 4) "12" (by decide) rfl).1
        "failed" EvInsFail (by decide) rfl rfl).2.2 12 12 rfl rfl
  · exact (enrichEvent_status brokenRegistry RangeOrder.source
      (setMutation "/instances/12/status" "pending" 5) "12" (by decide) rfl).2.1 rfl
        (by decide)
  · exact (enrichEvent_status brokenRegistry RangeOrder.source
      (delMutation "/instances/12/status" 6) "12" (by decide) rfl).2.2 rfl

theorem classify_start_eq (order : RangeOrder) (src : cp.Event) (I : String)
    (hI : IsInsId I) (hpath : src.Path = "/instances/" ++ I ++ "/start") :
    classify order.val src =
      (if src.IsSet = true ∧ 2 ≤ (Fields src.Body).length then EvInsStart else EvUnknown,
        if src.IsSet = true ∧ src.Body ≠ "" then { Instance := some I } else {}) := by
  rw [classify_insStart order src I hI hpath]
  have hF : (Fields "").length = 0 := by decide
  by_cases hset : src.IsSet = true
  · by_cases hb : src.Body = ""
    · simp [classifyCase, hset, hb, hF]
    · by_cases hf : 2 ≤ (Fields src.Body).length
      · have hf' : (Fields src.Body).length > 1 := hf
        simp [classifyCase, hset, hb, hf, hf']
      · have hf' : ¬ (Fields src.Body).length > 1 := hf
        simp [classifyCase, hset, hb, hf, hf']
  · simp [classifyCase, hset]

/-- C3. On `/instances/<I>/start` the type is instance-start if and only if
the mutation is a set and its body has at least two whitespace-separated
fields, and UNKNOWN in every other case (delete, empty body, a single field):
this holds of the classification and of every event the enricher returns; in
the first case the enricher returns the event, with the loaded instance as
source, once the instance loads, and in every other case it returns the
UNKNOWN event without any load. -/
theorem enrichEvent_start (R : Registry) (order : RangeOrder) (src : cp.Event) (I : String)
    (hI : IsInsId I) (hpath : src.Path = "/instances/" ++ I ++ "/start") :
    ((classify order.val src).1 = EvInsStart ↔
        (src.IsSet = true ∧ 2 ≤ (Fields src.Body).length)) ∧
    ((classify order.val src).1 = EvInsStart ∨ (classify order.val src).1 = EvUnknown) ∧
    (∀ ev, enrichEvent R order src = .ok ev →
        (ev.Typ = EvInsStart ↔ (src.IsSet = true ∧ 2 ≤ (Fields src.Body).length)) ∧
        (ev.Typ = EvInsStart ∨ ev.Typ = EvUnknown)) ∧
    (src.IsSet = true → 2 ≤ (Fields src.Body).length →
        ∀ id i, ParseInt I = .ok id → R.getInstance id src = .ok i →
          enrichEvent R order src =
            .ok { Typ := EvInsStart, Body := src.Body, Source := some (.ins (some i)),
                  Path := { App := none, Instance := some I, Proc := none, Revision := none,
                            Service := none },
                  raw := src, Rev := src.Rev }) ∧
    (¬ (src.IsSet = true ∧ 2 ≤ (Fields src.Body).length) →
        enrichEvent R order src =
          .ok { Typ := EvUnknown, Body := src.Body, Source := none,
                Path := if src.IsSet = true ∧ src.Body ≠ "" then
                          { App := none, Instance := some I, Proc := none, Revision := none,
                            Service := none }
                        else
                          { App := none, Instance := none, Proc := none, Revision := none,
                            Service := none },
                raw := src, Rev := src.Rev }) := by
  have hc := classify_start_eq order src I hI hpath
  have hiff : (classify order.val src).1 = EvInsStart ↔
      (src.IsSet = true ∧ 2 ≤ (Fields src.Body).length) := by
    rw [hc]
    by_cases h : src.IsSet = true ∧ 2 ≤ (Fields src.Body).length
    · simp [h]
    · simp only [h, if_false, iff_false]
      decide
  have hor : (classify order.val src).1 = EvInsStart ∨ (classify order.val src).1 = EvUnknown := by
    rw [hc]
    by_cases h : src.IsSet = true ∧ 2 ≤ (Fields src.Body).length
    · left; simp [h]
    · right; simp only [h, if_false]
  refine ⟨hiff, hor, ?_, ?_, ?_⟩
  · intro ev hev
    rw [(enrichEvent_ok_fields R order src ev hev).1]
    exact ⟨hiff, hor⟩
  · intro hset hf id i hid hi
    have hF : (Fields "").length = 0 := by decide
    have hb : src.Body ≠ "" := by
      intro h0
      rw [h0, hF] at hf
      omega
    have hct : classify order.val src = (EvInsStart, { Instance := some I }) := by
      rw [hc]
      simp [hset, hf, hb]
    exact enrichEvent_set R order src _ _ _ hct (by decide) hset
      (canonicalizeMetadata_ins R EvInsStart I src id i hid hi (by simp))
  · intro hn
    apply enrichEvent_unknown
    rw [hc]
    simp only [hn, if_false]

theorem enrichEvent_start_witness :
    IsInsId "12" ∧
    enrichEvent sampleRegistry RangeOrder.source
        (setMutation "/instances/12/start" "10.0.0.1 9999 10000 mouse.org" 4) =
      .ok { Typ := EvInsStart, Body := "10.0.0.1 9999 10000 mouse.org",
            Source := some (.ins (some 12)),
            Path := { App := none, Instance := some "12", Proc := none, Revision := none,
                      Service := none },
            raw := setMutation "/instances/12/start" "10.0.0.1 9999 10000 mouse.org" 4,
            Rev := 4 } ∧
    enrichEvent brokenRegistry RangeOrder.source
        (setMutation "/instances/12/start" " 10.0.0.1 " 5) =
      .ok { Typ := EvUnknown, Body := " 10.0.0.1 ", Source := none,
            Path := { App := none, Instance := some "12", Proc := none, Revision := none,
                      Service := none },
            raw := setMutation "/instances/12/start" " 10.0.0.1 " 5, Rev := 5 } ∧
    enrichEvent brokenRegistry RangeOrder.source (delMutation "/instances/12/start" 6) =
      .ok { Typ := EvUnknown, Body := "", Source := none,
            Path := { App := none, Instance := none, Proc := none, Revision := none,
                      Service := none },
            raw := delMutation "/instances/12/start" 6, Rev := 6 } := by
  refine ⟨by decide, ?_, ?_, ?_⟩
  · exact (enrichEvent_start sampleRegistry RangeOrder.source
      (setMutation "/instances/12/start" "10.0.0.1 9999 10000 mouse.org" 4) "12"
        (by decide) rfl).2.2.2.1 rfl (by decide) 12 12 rfl rfl
  · exact (enrichEvent_start brokenRegistry RangeOrder.source
      (setMutation "/instances/12/start" " 10.0.0.1 " 5) "12" (by decide) rfl).2.2.2.2
        (by decide)
  · exact (enrichEvent_start brokenRegistry RangeOrder.source
      (delMutation "/instances/12/start" 6) "12" (by decide) rfl).2.2.2.2 (by decide)

/-! ## Paths outside the table -/

theorem no_match_of_services (path : String) (rest : List Char)
    (h : path.toList = '/' :: 's' :: rest) :
    ∀ p ∈ eventPatterns, p.1.FindStringSubmatch path = none := by
  have ha : "/apps/".toList = ['/', 'a', 'p', 'p', 's', '/'] := rfl
  have hi : "/instances/".toList =
      ['/', 'i', 'n', 's', 't', 'a', 'n', 'c', 'e', 's', '/'] := rfl
  have h' : path.data = '/' :: 's' :: rest := h
  intro p hp
  simp only [eventPatterns, List.mem_cons, List.mem_singleton, List.not_mem_nil, or_false] at hp
  rcases hp with hp | hp | hp | hp | hp | hp | hp | hp <;> subst hp <;>
    simp [Regexp.FindStringSubmatch, matchSegs, h', ha, hi, stripPrefix]

/-- Whatever the service name, the endpoint id, the iteration order and the
registry, a set mutation on `/services/S/endpoints/E/registered` is typed
UNKNOWN with an empty Path, and the filtered watcher delivers nothing for it. -/
theorem services_path_unknown (R : Registry) (order : RangeOrder) (S E body : String)
    (rev : Int) (isDel : Bool) :
    enrichEvent R order
        { Path := "/services/" ++ S ++ "/endpoints/" ++ E ++ "/registered", Body := body,
          Rev := rev, IsSet := true, IsDel := isDel } =
      .ok { Typ := EvUnknown, Body := body, Source := none,
            Path := { App := none, Instance := none, Proc := none, Revision := none,
                      Service := none },
            raw := { Path := "/services/" ++ S ++ "/endpoints/" ++ E ++ "/registered",
                     Body := body, Rev := rev, IsSet := true, IsDel := isDel },
            Rev := rev } ∧
    (WatchEvent R
        [{ wait := .ok { Path := "/services/" ++ S ++ "/endpoints/" ++ E ++ "/registered",
                         Body := body, Rev := rev, IsSet := true, IsDel := isDel },
           order := order }]).delivered = [] := by
  have hen := enrichEvent_unknown R order
    { Path := "/services/" ++ S ++ "/endpoints/" ++ E ++ "/registered", Body := body,
      Rev := rev, IsSet := true, IsDel := isDel } {}
    (classify_of_no_match order _
      (no_match_of_services _ ("ervices/".toList ++ S.toList ++ "/endpoints/".toList ++
        E.toList ++ "/registered".toList) (by simp [toList_append])))
  refine ⟨hen, ?_⟩
  simp only [WatchEvent, hen]
  rfl

/-- C4. The registration of the endpoint `1.2.3.4:1000` of the service
`eventep` is not delivered as an event of its own type: the set mutation on
`/services/eventep/endpoints/1-2-3-4-1000/registered` is typed UNKNOWN with
every Path field nil, the filtered watcher delivers nothing for it and the raw
watcher one UNKNOWN event; this is so for every service name and endpoint id,
and no event type has the value `endpoint-register`. -/
theorem endpoint_register_not_delivered :
    enrichEvent sampleRegistry RangeOrder.source
        (setMutation "/services/eventep/endpoints/1-2-3-4-1000/registered" "now" 4) =
      .ok { Typ := EvUnknown, Body := "now", Source := none,
            Path := { App := none, Instance := none, Proc := none, Revision := none,
                      Service := none },
            raw := setMutation "/services/eventep/endpoints/1-2-3-4-1000/registered" "now" 4,
            Rev := 4 } ∧
    (WatchEvent sampleRegistry
        [{ wait := .ok (setMutation "/services/eventep/endpoints/1-2-3-4-1000/registered"
                          "now" 4),
           order := RangeOrder.source }]).delivered = [] ∧
    (WatchEventRaw sampleRegistry
        [{ wait := .ok (setMutation "/services/eventep/endpoints/1-2-3-4-1000/registered"
                          "now" 4),
           order := RangeOrder.source }]).delivered.map (fun e => e.Typ) = [EvUnknown] ∧
    (∀ (R : Registry) (order : RangeOrder) (S E body : String) (rev : Int) (isDel : Bool),
      (WatchEvent R
        [{ wait := .ok { Path := "/services/" ++ S ++ "/endpoints/" ++ E ++ "/registered",
                         Body := body, Rev := rev, IsSet := true, IsDel := isDel },
           order := order }]).delivered = []) ∧
    (∀ t : EventType, t.toString ≠ "endpoint-register") := by
  refine ⟨(services_path_unknown sampleRegistry RangeOrder.source "eventep" "1-2-3-4-1000"
      "now" 4 false).1,
    (services_path_unknown sampleRegistry RangeOrder.source "eventep" "1-2-3-4-1000"
      "now" 4 false).2, by rfl,
    fun R order S E body rev isDel => (services_path_unknown R order S E body rev isDel).2, ?_⟩
  intro t
  cases t <;> decide

/-! ## The watchers -/

theorem WatchEvent_eq_dropUnknown (R : Registry) (turns : List (Turn R)) :
    (WatchEvent R turns).delivered = dropUnknown (WatchEventRaw R turns).delivered ∧
      (WatchEvent R turns).err = (WatchEventRaw R turns).err := by
  induction turns with
  | nil => exact ⟨rfl, rfl⟩
  | cons t rest ih =>
      simp only [WatchEvent, WatchEventRaw]
      cases t.wait with
      | error e => exact ⟨rfl, rfl⟩
      | ok ev =>
          simp only
          cases enrichEvent R t.order ev with
          | error e => exact ⟨rfl, rfl⟩
          | ok event =>
              simp only
              by_cases hu : event.Typ = EvUnknown
              · simp only [hu, if_true, dropUnknown, List.filter, ne_eq, not_true_eq_false,
                  decide_False]
                exact ih
              · simp only [hu, if_false, dropUnknown, List.filter, ne_eq, not_false_eq_true,
                  decide_True]
                exact ⟨by rw [ih.1]; rfl, ih.2⟩

theorem WatchEventRaw_of_succeeds (R : Registry) (turns : List (Turn R))
    (h : ∀ t ∈ turns, t.Succeeds) :
    (WatchEventRaw R turns).err = none ∧
      (WatchEventRaw R turns).delivered.length = turns.length ∧
      (WatchEventRaw R turns).delivered.map (fun e => e.raw) = mutations turns := by
  induction turns with
  | nil => exact ⟨rfl, rfl, rfl⟩
  | cons t rest ih =>
      obtain ⟨ev, e, hw, he⟩ := h t (List.mem_cons_self _ _)
      obtain ⟨h1, h2, h3⟩ := ih (fun u hu => h u (List.mem_cons_of_mem _ hu))
      have hraw := (enrichEvent_ok_fields R t.order ev e he).2.2.2.2
      simp only [WatchEventRaw, hw, he, mutations, List.filterMap_cons, List.length_cons,
        List.map_cons]
      refine ⟨h1, by rw [h2], ?_⟩
      rw [h3, hraw]
      rfl

/-- C5. The filtered watcher refines the raw watcher: on every script the
events delivered by `WatchEvent` are those delivered by `WatchEventRaw` with
the events of type UNKNOWN removed, in the same order, and both end alike;
none of them is UNKNOWN; and on a script of mutations whose enrichment does
not fail the raw watcher delivers one event for every mutation, neither
watcher returning an error. -/
theorem WatchEvent_refines_WatchEventRaw (R : Registry) (turns : List (Turn R)) :
    (WatchEvent R turns).delivered = dropUnknown (WatchEventRaw R turns).delivered ∧
    (WatchEvent R turns).err = (WatchEventRaw R turns).err ∧
    (∀ e ∈ (WatchEvent R turns).delivered, e.Typ ≠ EvUnknown) ∧
    ((∀ t ∈ turns, t.Succeeds) →
      (WatchEventRaw R turns).delivered.length = turns.length ∧
      (WatchEventRaw R turns).delivered.map (fun e => e.raw) = mutations turns ∧
      (WatchEventRaw R turns).err = none ∧ (WatchEvent R turns).err = none) := by
  obtain ⟨h1, h2⟩ := WatchEvent_eq_dropUnknown R turns
  refine ⟨h1, h2, ?_, ?_⟩
  · intro e he
    rw [h1, dropUnknown, List.mem_filter] at he
    simpa using he.2
  · intro hs
    obtain ⟨h3, h4, h5⟩ := WatchEventRaw_of_succeeds R turns hs
    exact ⟨h4, h5, h3, by rw [h2, h3]⟩

theorem sampleScript_succeeds : ∀ t ∈ sampleScript, t.Succeeds := by
  intro t ht
  simp only [sampleScript, List.mem_cons, List.mem_singleton, List.not_mem_nil, or_false] at ht
  rcases ht with h | h | h <;> subst h <;> exact ⟨_, _, rfl, rfl⟩

theorem WatchEvent_refines_WatchEventRaw_witness :
    (∀ t ∈ sampleScript, t.Succeeds) ∧
    (WatchEventRaw sampleRegistry sampleScript).delivered.map (fun e => e.Typ) =
      [EvAppReg, EvUnknown, EvInsUnreg] ∧
    (WatchEvent sampleRegistry sampleScript).delivered.map (fun e => e.Typ) =
      [EvAppReg, EvInsUnreg] ∧
    (WatchEvent sampleRegistry sampleScript).delivered =
      dropUnknown (WatchEventRaw sampleRegistry sampleScript).delivered ∧
    (WatchEventRaw sampleRegistry sampleScript).delivered.length = sampleScript.length ∧
    (WatchEvent sampleRegistry sampleScript).err = none :=
  ⟨sampleScript_succeeds, by rfl, by rfl,
    (WatchEvent_refines_WatchEventRaw sampleRegistry sampleScript).1,
    ((WatchEvent_refines_WatchEventRaw sampleRegistry sampleScript).2.2.2
      sampleScript_succeeds).1,
    ((WatchEvent_refines_WatchEventRaw sampleRegistry sampleScript).2.2.2
      sampleScript_succeeds).2.2.2⟩

theorem WatchEventRaw_append (R : Registry) (pre rest : List (Turn R))
    (hpre : ∀ u ∈ pre, u.Succeeds) :
    (WatchEventRaw R (pre ++ rest)).delivered =
        (WatchEventRaw R pre).delivered ++ (WatchEventRaw R rest).delivered ∧
      (WatchEventRaw R (pre ++ rest)).err = (WatchEventRaw R rest).err := by
  induction pre with
  | nil => exact ⟨rfl, rfl⟩
  | cons t pre ih =>
      obtain ⟨ev, e, hw, he⟩ := hpre t (List.mem_cons_self _ _)
      obtain ⟨h1, h2⟩ := ih (fun u hu => hpre u (List.mem_cons_of_mem _ hu))
      rw [List.cons_append]
      simp only [WatchEventRaw, hw, he, List.cons_append]
      exact ⟨congrArg _ h1, h2⟩

theorem WatchEvent_append (R : Registry) (pre rest : List (Turn R))
    (hpre : ∀ u ∈ pre, u.Succeeds) :
    (WatchEvent R (pre ++ rest)).delivered =
        (WatchEvent R pre).delivered ++ (WatchEvent R rest).delivered ∧
      (WatchEvent R (pre ++ rest)).err = (WatchEvent R rest).err := by
  induction pre with
  | nil => exact ⟨rfl, rfl⟩
  | cons t pre ih =>
      obtain ⟨ev, e, hw, he⟩ := hpre t (List.mem_cons_self _ _)
      obtain ⟨h1, h2⟩ := ih (fun u hu => hpre u (List.mem_cons_of_mem _ hu))
      rw [List.cons_append]
      simp only [WatchEvent, hw, he]
      by_cases hu : e.Typ = EvUnknown
      · simp only [hu, if_true]
        exact ⟨h1, h2⟩
      · simp only [hu, if_false, List.cons_append]
        exact ⟨congrArg _ h1, h2⟩

theorem watchers_of_failing_turn (R : Registry) (t : Turn R) (post : List (Turn R))
    (err : Error R.Err) (hfail : t.FailsWith err) :
    WatchEventRaw R (t :: post) = { delivered := [], err := some err } ∧
      WatchEvent R (t :: post) = { delivered := [], err := some err } := by
  rcases hfail with ⟨e, hw, he⟩ | ⟨ev, hw, he⟩
  · subst he
    simp only [WatchEventRaw, WatchEvent, hw, and_self]
  · simp only [WatchEventRaw, WatchEvent, hw, he, and_self]

/-- C7. The watchers stop on error. If the first `k-1` turns succeed and in
the `k`-th the wait or the enrichment of the mutation fails, then each of
`WatchEventRaw` and `WatchEvent` returns that error, whatever would follow;
what it has delivered is what it delivers on the first `k-1` turns alone: for
the raw watcher one event for each of the first `k-1` mutations, for the
filtered watcher those of them that are not UNKNOWN. -/
theorem watchers_stop_on_error (R : Registry) (pre : List (Turn R)) (t : Turn R)
    (post : List (Turn R)) (err : Error R.Err)
    (hpre : ∀ u ∈ pre, u.Succeeds) (hfail : t.FailsWith err) :
    (WatchEventRaw R (pre ++ t :: post)).err = some err ∧
    (WatchEvent R (pre ++ t :: post)).err = some err ∧
    (WatchEventRaw R (pre ++ t :: post)).delivered = (WatchEventRaw R pre).delivered ∧
    (WatchEvent R (pre ++ t :: post)).delivered = (WatchEvent R pre).delivered ∧
    (WatchEventRaw R pre).delivered.map (fun e => e.raw) = mutations pre ∧
    (WatchEventRaw R pre).delivered.length = pre.length ∧
    (WatchEvent R pre).delivered = dropUnknown (WatchEventRaw R pre).delivered := by
  obtain ⟨h1, h2⟩ := WatchEventRaw_append R pre (t :: post) hpre
  obtain ⟨h3, h4⟩ := WatchEvent_append R pre (t :: post) hpre
  obtain ⟨h5, h6⟩ := watchers_of_failing_turn R t post err hfail
  obtain ⟨_, h7, h8⟩ := WatchEventRaw_of_succeeds R pre hpre
  rw [h5] at h1 h2
  rw [h6] at h3 h4
  exact ⟨h2, h4, by simpa using h1, by simpa using h3, h8, h7,
    (WatchEvent_eq_dropUnknown R pre).1⟩

theorem watchers_stop_on_error_witness :
    (∀ u ∈ sampleScript, u.Succeeds) ∧
    failingTurn.FailsWith
      (.canonicalizing (setMutation "/instances/1-2/registered" "regcat stable web default" 8)
        (.num "1-2" .ErrSyntax)) ∧
    (WatchEventRaw sampleRegistry (sampleScript ++ failingTurn :: sampleScript)).err =
      some (.canonicalizing
        (setMutation "/instances/1-2/registered" "regcat stable web default" 8)
        (.num "1-2" .ErrSyntax)) ∧
    (WatchEventRaw sampleRegistry (sampleScript ++ failingTurn :: sampleScript)).delivered =
      (WatchEventRaw sampleRegistry sampleScript).delivered ∧
    (WatchEvent sampleRegistry (sampleScript ++ lostTurn :: sampleScript)).err =
      some (.store "connection lost") ∧
    (WatchEvent sampleRegistry (sampleScript ++ lostTurn :: sampleScript)).delivered =
      (WatchEvent sampleRegistry sampleScript).delivered :=
  ⟨sampleScript_succeeds, Or.inr ⟨_, rfl, rfl⟩,
    (watchers_stop_on_error sampleRegistry sampleScript failingTurn sampleScript _
      sampleScript_succeeds (Or.inr ⟨_, rfl, rfl⟩)).1,
    (watchers_stop_on_error sampleRegistry sampleScript failingTurn sampleScript _
      sampleScript_succeeds (Or.inr ⟨_, rfl, rfl⟩)).2.2.1,
    (watchers_stop_on_error sampleRegistry sampleScript lostTurn sampleScript _
      sampleScript_succeeds (Or.inl ⟨_, rfl, rfl⟩)).2.1,
    (watchers_stop_on_error sampleRegistry sampleScript lostTurn sampleScript _
      sampleScript_succeeds (Or.inl ⟨_, rfl, rfl⟩)).2.2.2.1⟩

theorem WatchEventRaw_kth (R : Registry) (turns : List (Turn R)) (k : Nat) (e : Event R)
    (h : (WatchEventRaw R turns).delivered[k]? = some e) :
    ∃ t, turns[k]? = some t ∧ t.wait = .ok e.raw ∧ e.Rev = e.raw.Rev ∧
      e.Body = e.raw.Body := by
  induction turns generalizing k with
  | nil => simp [WatchEventRaw] at h
  | cons t rest ih =>
      simp only [WatchEventRaw] at h
      cases hw : t.wait with
      | error x => rw [hw] at h; simp at h
      | ok ev =>
          rw [hw] at h
          simp only at h
          cases he : enrichEvent R t.order ev with
          | error x => rw [he] at h; simp at h
          | ok event =>
              rw [he] at h
              simp only at h
              obtain ⟨_, _, hb, hr, hraw⟩ := enrichEvent_ok_fields R t.order ev event he
              cases k with
              | zero =>
                  simp only [List.getElem?_cons_zero, Option.some.injEq] at h
                  subst h
                  exact ⟨t, by simp, by rw [hw, hraw], by rw [hr, hraw], by rw [hb, hraw]⟩
              | succ k =>
                  simp only [List.getElem?_cons_succ] at h
                  obtain ⟨u, hu, hrest⟩ := ih k h
                  exact ⟨u, by simpa using hu, hrest⟩

theorem WatchEventRaw_initial (R : Registry) (turns : List (Turn R)) :
    (WatchEventRaw R turns).delivered.map (fun e => e.raw) <+: mutations turns := by
  induction turns with
  | nil => exact List.prefix_refl _
  | cons t rest ih =>
      simp only [WatchEventRaw]
      cases hw : t.wait with
      | error x => exact List.nil_prefix
      | ok ev =>
          simp only
          cases he : enrichEvent R t.order ev with
          | error x => exact List.nil_prefix
          | ok event =>
              have hraw := (enrichEvent_ok_fields R t.order ev event he).2.2.2.2
              simp only [mutations, List.filterMap_cons, hw, List.map_cons, hraw]
              exact (List.prefix_cons_inj ev).mpr ih

theorem WatchEventRaw_length_le (R : Registry) (turns : List (Turn R)) :
    (WatchEventRaw R turns).delivered.length ≤ turns.length := by
  induction turns with
  | nil => exact Nat.le_refl _
  | cons t rest ih =>
      simp only [WatchEventRaw]
      cases t.wait with
      | error x => simp
      | ok ev =>
          simp only
          cases enrichEvent R t.order ev with
          | error x => simp
          | ok event => simpa using ih

/-- C8. The raw watcher delivers in the order of the store, without
reordering or duplication: the `k`-th event it delivers comes from the `k`-th
turn, whose wait returned the mutation the event carries, and has the Rev and
the Body of that mutation; the mutations behind the delivered events are an
initial segment of the mutations returned by the waits (all of them when no
turn fails), so when the store yields increasing revisions the delivered Rev
values increase as well. -/
theorem WatchEventRaw_in_store_order (R : Registry) (turns : List (Turn R)) :
    (∀ (k : Nat) (e : Event R), (WatchEventRaw R turns).delivered[k]? = some e →
      ∃ t : Turn R, turns[k]? = some t ∧ t.wait = .ok e.raw ∧ e.Rev = e.raw.Rev ∧
        e.Body = e.raw.Body) ∧
    (WatchEventRaw R turns).delivered.length ≤ turns.length ∧
    (WatchEventRaw R turns).delivered.map (fun e => e.raw) <+: mutations turns ∧
    ((∀ t ∈ turns, t.Succeeds) →
      (WatchEventRaw R turns).delivered.map (fun e => e.raw) = mutations turns ∧
      (WatchEventRaw R turns).delivered.length = turns.length) ∧
    (((mutations turns).map (fun ev => ev.Rev)).Pairwise (fun a b => a < b) →
      ((WatchEventRaw R turns).delivered.map (fun e => e.Rev)).Pairwise (fun a b => a < b)) := by
  refine ⟨WatchEventRaw_kth R turns, WatchEventRaw_length_le R turns,
    WatchEventRaw_initial R turns, ?_, ?_⟩
  · intro hs
    obtain ⟨_, h2, h3⟩ := WatchEventRaw_of_succeeds R turns hs
    exact ⟨h3, h2⟩
  · intro hp
    have hrev : (WatchEventRaw R turns).delivered.map (fun e => e.Rev) =
        ((WatchEventRaw R turns).delivered.map (fun e => e.raw)).map (fun ev => ev.Rev) := by
      rw [List.map_map]
      apply List.map_congr_left
      intro e he
      obtain ⟨k, hk⟩ := List.getElem?_of_mem he
      obtain ⟨_, _, _, hr, _⟩ := WatchEventRaw_kth R turns k e hk
      simpa using hr
    rw [hrev]
    exact hp.sublist ((WatchEventRaw_initial R turns).map _).sublist

theorem WatchEventRaw_in_store_order_witness :
    (∀ t ∈ sampleScript, t.Succeeds) ∧
    ((mutations sampleScript).map (fun ev => ev.Rev)).Pairwise (fun a b => a < b) ∧
    (WatchEventRaw sampleRegistry sampleScript).delivered.map (fun e => (e.Rev, e.Body)) =
      [(5, "now"), (6, "value"), (7, "")] ∧
    (WatchEventRaw sampleRegistry sampleScript).delivered.map (fun e => e.raw) =
      mutations sampleScript ∧
    ((WatchEventRaw sampleRegistry sampleScript).delivered.map
      (fun e => e.Rev)).Pairwise (fun a b => a < b) :=
  ⟨sampleScript_succeeds, by decide, by rfl,
    ((WatchEventRaw_in_store_order sampleRegistry sampleScript).2.2.2.1
      sampleScript_succeeds).1,
    (WatchEventRaw_in_store_order sampleRegistry sampleScript).2.2.2.2 (by decide)⟩

/-! ## Loading the source -/

theorem loadApp_ok_iff (R : Registry) (d : EventData) (s : cp.Event) (app : Option R.App) :
    loadApp R d s = .ok app ↔
      (match d.App with
        | some a => ∃ v, R.getApp a s = .ok v ∧ app = some v
        | none => app = none) := by
  unfold loadApp
  cases d.App with
  | none => simp [eq_comm]
  | some a =>
      simp only
      cases R.getApp a s with
      | error e => simp
      | ok v => simp [eq_comm]

theorem loadRevision_ok_iff (R : Registry) (app : Option R.App) (d : EventData) (s : cp.Event)
    (rev : Option R.Revision) :
    loadRevision R app d s = .ok rev ↔
      (match d.Revision with
        | some r => ∃ v, R.getRevision app r s = .ok v ∧ rev = some v
        | none => rev = none) := by
  unfold loadRevision
  cases d.Revision with
  | none => simp [eq_comm]
  | some a =>
      simp only
      cases R.getRevision app a s with
      | error e => simp
      | ok v => simp [eq_comm]

theorem loadProc_ok_iff (R : Registry) (app : Option R.App) (d : EventData) (s : cp.Event)
    (proc : Option R.Proc) :
    loadProc R app d s = .ok proc ↔
      (match d.Proc with
        | some p => ∃ v, R.getProc app p s = .ok v ∧ proc = some v
        | none => proc = none) := by
  unfold loadProc
  cases d.Proc with
  | none => simp [eq_comm]
  | some a =>
      simp only
      cases R.getProc app a s with
      | error e => simp
      | ok v => simp [eq_comm]

theorem loadInstance_ok_iff (R : Registry) (d : EventData) (s : cp.Event)
    (ins : Option R.Instance) :
    loadInstance R d s = .ok ins ↔
      (match d.Instance with
        | some i => ∃ id v, ParseInt i = .ok id ∧ R.getInstance id s = .ok v ∧ ins = some v
        | none => ins = none) := by
  unfold loadInstance
  cases d.Instance with
  | none => simp [eq_comm]
  | some a =>
      simp only
      cases ParseInt a with
      | error e => simp
      | ok id =>
          simp only
          cases hg : R.getInstance id s with
          | error e => simp [hg]
          | ok v => simp [hg, eq_comm]

theorem canonicalizeMetadata_ok_iff (R : Registry) (t : EventType) (d : EventData)
    (s : cp.Event) (source : Option (Snapshotable R)) :
    canonicalizeMetadata R t d s = .ok source ↔
      ∃ app rev proc ins, Loaded R d s app rev proc ins ∧
        source = selectSource R t app rev proc ins := by
  unfold Loaded
  simp only [← loadApp_ok_iff, ← loadRevision_ok_iff, ← loadProc_ok_iff,
    ← loadInstance_ok_iff]
  unfold canonicalizeMetadata
  constructor
  · intro h
    cases h1 : loadApp R d s with
    | error e => rw [h1] at h; cases h
    | ok app =>
    rw [h1] at h
    simp only at h
    cases h2 : loadRevision R app d s with
    | error e => rw [h2] at h; cases h
    | ok rev =>
    rw [h2] at h
    simp only at h
    cases h3 : loadProc R app d s with
    | error e => rw [h3] at h; cases h
    | ok proc =>
    rw [h3] at h
    simp only at h
    cases h4 : loadInstance R d s with
    | error e => rw [h4] at h; cases h
    | ok ins =>
    rw [h4] at h
    cases h
    exact ⟨app, rev, proc, ins, ⟨rfl, h2, h3, rfl⟩, rfl⟩
  · rintro ⟨app, rev, proc, ins, ⟨h1, h2, h3, h4⟩, hs⟩
    rw [h1]
    simp only
    rw [h2]
    simp only
    rw [h3]
    simp only
    rw [h4, hs]

theorem canonicalizeMetadata_error_iff (R : Registry) (t : EventType) (d : EventData)
    (s : cp.Event) :
    (∃ e, canonicalizeMetadata R t d s = .error e) ↔
      ¬ ∃ app rev proc ins, Loaded R d s app rev proc ins := by
  constructor
  · rintro ⟨e, he⟩ ⟨app, rev, proc, ins, hl⟩
    have := (canonicalizeMetadata_ok_iff R t d s _).mpr ⟨app, rev, proc, ins, hl, rfl⟩
    rw [he] at this
    cases this
  · intro hn
    cases hc : canonicalizeMetadata R t d s with
    | error e => exact ⟨e, rfl⟩
    | ok source =>
        obtain ⟨app, rev, proc, ins, hl, _⟩ := (canonicalizeMetadata_ok_iff R t d s source).mp hc
        exact absurd ⟨app, rev, proc, ins, hl⟩ hn

/-- C6. The enricher returns an error if and only if the mutation is a set,
its classified type is not UNKNOWN, and some entity named by the path does
not load (the parse of the instance id included); the error then wraps the
error of `canonicalizeMetadata` together with the raw event.  A mutation that
is not a set, and a mutation classified UNKNOWN, is returned as an event with
a nil Source, without any load, whatever the registry. -/
theorem enrichEvent_error_iff (R : Registry) (order : RangeOrder) (src : cp.Event) :
    ((∃ err, enrichEvent R order src = .error err) ↔
      (src.IsSet = true ∧ (classify order.val src).1 ≠ EvUnknown ∧
        ¬ ∃ app rev proc ins,
            Loaded R (classify order.val src).2 src app rev proc ins)) ∧
    (∀ err, enrichEvent R order src = .error err →
      ∃ inner, err = .canonicalizing src inner ∧
        canonicalizeMetadata R (classify order.val src).1 (classify order.val src).2 src
          = .error inner) ∧
    (src.IsSet = false →
      enrichEvent R order src =
        .ok { Typ := (classify order.val src).1, Body := src.Body, Source := none,
              Path := (classify order.val src).2, raw := src, Rev := src.Rev }) ∧
    ((classify order.val src).1 = EvUnknown →
      enrichEvent R order src =
        .ok { Typ := EvUnknown, Body := src.Body, Source := none,
              Path := (classify order.val src).2, raw := src, Rev := src.Rev }) := by
  refine ⟨?_, ?_, ?_, ?_⟩
  · rw [← canonicalizeMetadata_error_iff R (classify order.val src).1]
    unfold enrichEvent
    simp only
    by_cases hc : (classify order.val src).1 ≠ EvUnknown ∧ src.IsSet = true
    · simp only [hc, and_self, if_true, ne_eq, not_false_eq_true, true_and]
      cases canonicalizeMetadata R (classify order.val src).1 (classify order.val src).2 src with
      | error e => simp
      | ok c => simp
    · simp only [hc, if_false]
      constructor
      · rintro ⟨err, h⟩
        cases h
      · rintro ⟨h1, h2, _⟩
        exact absurd ⟨h2, h1⟩ hc
  · intro err h
    unfold enrichEvent at h
    simp only at h
    split at h
    · cases hcm : canonicalizeMetadata R (classify order.val src).1
          (classify order.val src).2 src with
      | error e =>
          rw [hcm] at h
          cases h
          exact ⟨e, rfl, rfl⟩
      | ok c =>
          rw [hcm] at h
          cases h
    · cases h
  · intro hset
    exact enrichEvent_not_set R order src _ _ rfl hset
  · intro hu
    have := enrichEvent_unknown R order src (classify order.val src).2
      (by rw [← hu])
    exact this

theorem enrichEvent_error_iff_witness :
    (∃ err, enrichEvent sampleRegistry RangeOrder.source
        (setMutation "/instances/1-2/registered" "regcat stable web default" 8) = .error err) ∧
    enrichEvent brokenRegistry RangeOrder.source (delMutation "/apps/regcat/registered" 9) =
      .ok { Typ := EvAppUnreg, Body := "", Source := none,
            Path := { App := some "regcat" },
            raw := delMutation "/apps/regcat/registered" 9, Rev := 9 } :=
  ⟨((enrichEvent_error_iff sampleRegistry RangeOrder.source
      (setMutation "/instances/1-2/registered" "regcat stable web default" 8)).1).mpr
      ⟨rfl, by decide, by
        rintro ⟨app, rev, proc, ins, _, _, _, h⟩
        obtain ⟨id, v, hid, _⟩ := h
        cases hid⟩,
    (enrichEvent_error_iff brokenRegistry RangeOrder.source
      (delMutation "/apps/regcat/registered" 9)).2.2.1 rfl⟩

/-- C9. The event type alone selects the source: whenever
`canonicalizeMetadata` succeeds, every entity named by the path has loaded,
and the source is the loaded App for app-register, the loaded Revision for
rev-register, the loaded Proc for proc-register and proc-attrs, the loaded
Instance for instance-register, instance-start, instance-fail, instance-exit
and instance-lost, and nil for every other type. -/
theorem canonicalizeMetadata_source (R : Registry) (t : EventType) (d : EventData)
    (s : cp.Event) (source : Option (Snapshotable R))
    (h : canonicalizeMetadata R t d s = .ok source) :
    ∃ app rev proc ins, Loaded R d s app rev proc ins ∧
      (t = EvAppReg → source = some (.app app)) ∧
      (t = EvRevReg → source = some (.rev rev)) ∧
      (t = EvProcReg ∨ t = EvProcAttrs → source = some (.proc proc)) ∧
      (t = EvInsReg ∨ t = EvInsStart ∨ t = EvInsFail ∨ t = EvInsExit ∨ t = EvInsLost →
        source = some (.ins ins)) ∧
      (t = EvAppUnreg ∨ t = EvRevUnreg ∨ t = EvProcUnreg ∨ t = EvInsUnreg ∨ t = EvUnknown →
        source = none) := by
  obtain ⟨app, rev, proc, ins, hl, hs⟩ := (canonicalizeMetadata_ok_iff R t d s source).mp h
  refine ⟨app, rev, proc, ins, hl, ?_, ?_, ?_, ?_, ?_⟩
  · intro ht; subst ht; exact hs
  · intro ht; subst ht; exact hs
  · rintro (ht | ht) <;> subst ht <;> exact hs
  · rintro (ht | ht | ht | ht | ht) <;> subst ht <;> exact hs
  · rintro (ht | ht | ht | ht | ht) <;> subst ht <;> exact hs

theorem canonicalizeMetadata_source_witness :
    canonicalizeMetadata sampleRegistry EvInsStart { Instance := some "12" }
        (setMutation "/instances/12/start" "10.0.0.1 9999 10000 mouse.org" 4) =
      .ok (some (.ins (some 12))) ∧
    ∃ app rev proc ins,
      Loaded sampleRegistry { Instance := some "12" }
        (setMutation "/instances/12/start" "10.0.0.1 9999 10000 mouse.org" 4)
        app rev proc ins ∧
      some (Snapshotable.ins (some 12)) = some (Snapshotable.ins ins) := by
  refine ⟨rfl, ?_⟩
  obtain ⟨app, rev, proc, ins, hl, _, _, _, h4, _⟩ :=
    canonicalizeMetadata_source sampleRegistry EvInsStart { Instance := some "12" }
      (setMutation "/instances/12/start" "10.0.0.1 9999 10000 mouse.org" 4)
      (some (.ins (some 12))) rfl
  exact ⟨app, rev, proc, ins, hl, h4 (Or.inr (Or.inl rfl))⟩

/-! ## The identifier grammar -/

theorem isName_of_accepts (c : String) (h1 : c.toList ≠ [])
    (h2 : ∀ x ∈ c.toList, charPat.accepts x = true) : IsName c :=
  ⟨h1, fun x hx => by rw [← charPat_accepts_eq]; exact h2 x hx⟩

theorem capsOk_one (P L : String) (cls : CharClass) (caps : List String)
    (h : capsOk [.lit P, .cap cls, .lit L] caps) :
    ∃ c1, caps = [c1] ∧ c1.toList ≠ [] ∧ ∀ x ∈ c1.toList, cls.accepts x = true := by
  rcases caps with _ | ⟨c1, caps⟩
  · simp [capsOk] at h
  · simp only [capsOk] at h
    obtain ⟨h1, h2, h3⟩ := h
    subst h3
    exact ⟨c1, rfl, h1, h2⟩

theorem capsOk_two (P M L : String) (cls cls2 : CharClass) (caps : List String)
    (h : capsOk [.lit P, .cap cls, .lit M, .cap cls2, .lit L] caps) :
    ∃ c1 c2, caps = [c1, c2] ∧ (c1.toList ≠ [] ∧ ∀ x ∈ c1.toList, cls.accepts x = true) ∧
      (c2.toList ≠ [] ∧ ∀ x ∈ c2.toList, cls2.accepts x = true) := by
  rcases caps with _ | ⟨c1, caps⟩
  · simp [capsOk] at h
  · simp only [capsOk] at h
    obtain ⟨h1, h2, h3⟩ := h
    rcases caps with _ | ⟨c2, caps⟩
    · simp [capsOk] at h3
    · simp only [capsOk] at h3
      obtain ⟨h4, h5, h6⟩ := h3
      subst h6
      exact ⟨c1, c2, rfl, ⟨h1, h2⟩, ⟨h4, h5⟩⟩

/-- What a match of a pattern of the table captures. -/
theorem table_captures (p : Regexp × eventPath) (hp : p ∈ eventPatterns) (inp : List Char)
    (caps : List String) (hg : matchGreedy p.1 inp = some caps) :
    (p.2 = pathApp → ∃ c1, caps = [c1] ∧ IsName c1) ∧
    (p.2 = pathRev ∨ p.2 = pathProc ∨ p.2 = pathProcAttrs →
      ∃ c1 c2, caps = [c1, c2] ∧ IsName c1 ∧ IsName c2) ∧
    (p.2 = pathInsRegistered ∨ p.2 = pathInsStatus ∨ p.2 = pathInsStart ∨ p.2 = pathInsStop →
      ∃ c1, caps = [c1] ∧ IsInsId c1) := by
  have hok := (matchGreedy_sound p.1 inp caps hg).2
  simp only [eventPatterns, List.mem_cons, List.mem_singleton, List.not_mem_nil,
    or_false] at hp
  rcases hp with hp | hp | hp | hp | hp | hp | hp | hp <;> subst hp
  · obtain ⟨c1, hc, h1, h2⟩ := capsOk_one _ _ _ _ hok
    exact ⟨fun _ => ⟨c1, hc, isName_of_accepts c1 h1 h2⟩, by simp, by simp⟩
  · obtain ⟨c1, c2, hc, ⟨h1, h2⟩, ⟨h3, h4⟩⟩ := capsOk_two _ _ _ _ _ _ hok
    exact ⟨by simp,
      fun _ => ⟨c1, c2, hc, isName_of_accepts c1 h1 h2, isName_of_accepts c2 h3 h4⟩, by simp⟩
  · obtain ⟨c1, c2, hc, ⟨h1, h2⟩, ⟨h3, h4⟩⟩ := capsOk_two _ _ _ _ _ _ hok
    exact ⟨by simp,
      fun _ => ⟨c1, c2, hc, isName_of_accepts c1 h1 h2, isName_of_accepts c2 h3 h4⟩, by simp⟩
  · obtain ⟨c1, c2, hc, ⟨h1, h2⟩, ⟨h3, h4⟩⟩ := capsOk_two _ _ _ _ _ _ hok
    exact ⟨by simp,
      fun _ => ⟨c1, c2, hc, isName_of_accepts c1 h1 h2, isName_of_accepts c2 h3 h4⟩, by simp⟩
  · obtain ⟨c1, hc, h1, h2⟩ := capsOk_one _ _ _ _ hok
    exact ⟨by simp, by simp, fun _ => ⟨c1, hc, h1, h2⟩⟩
  · obtain ⟨c1, hc, h1, h2⟩ := capsOk_one _ _ _ _ hok
    exact ⟨by simp, by simp, fun _ => ⟨c1, hc, h1, h2⟩⟩
  · obtain ⟨c1, hc, h1, h2⟩ := capsOk_one _ _ _ _ hok
    exact ⟨by simp, by simp, fun _ => ⟨c1, hc, h1, h2⟩⟩
  · obtain ⟨c1, hc, h1, h2⟩ := capsOk_one _ _ _ _ hok
    exact ⟨by simp, by simp, fun _ => ⟨c1, hc, h1, h2⟩⟩

/-- Which submatch each path field of a classification holds. -/
theorem classifyCase_fields (ev : eventPath) (m : List String) (src : cp.Event) :
    (∀ a, (classifyCase ev m src).2.App = some a →
      a = m.getD 1 "" ∧ (ev = pathApp ∨ ev = pathRev ∨ ev = pathProc ∨ ev = pathProcAttrs)) ∧
    (∀ a, (classifyCase ev m src).2.Revision = some a → a = m.getD 2 "" ∧ ev = pathRev) ∧
    (∀ a, (classifyCase ev m src).2.Proc = some a →
      a = m.getD 2 "" ∧ (ev = pathProc ∨ ev = pathProcAttrs)) ∧
    (∀ a, (classifyCase ev m src).2.Instance = some a →
      a = m.getD 1 "" ∧ (ev = pathInsRegistered ∨ ev = pathInsStatus ∨ ev = pathInsStart)) ∧
    (classifyCase ev m src).2.Service = none := by
  cases ev <;> simp only [classifyCase] <;> (try split_ifs) <;> simp [eq_comm]

/-- The path fields of a classification are captures of the table: app,
revision and proc are names of the identifier grammar, an instance is read by
the id pattern, and the service field is never set. -/
theorem classify_captures (order : RangeOrder) (src : cp.Event) :
    (∀ a, (classify order.val src).2.App = some a → IsName a) ∧
    (∀ a, (classify order.val src).2.Revision = some a → IsName a) ∧
    (∀ a, (classify order.val src).2.Proc = some a → IsName a) ∧
    (∀ i, (classify order.val src).2.Instance = some i → IsInsId i) ∧
    (classify order.val src).2.Service = none := by
  rcases classify_cases order src with ⟨_, hc⟩ | ⟨p, hp, m, hm, hc⟩
  · rw [hc]
    simp
  · rw [hc]
    rw [FindStringSubmatch_table p hp] at hm
    cases hg : matchGreedy p.1 src.Path.toList with
    | none => rw [hg] at hm; cases hm
    | some caps =>
        rw [hg] at hm
        cases hm
        obtain ⟨t1, t2, t3⟩ := table_captures p hp _ caps hg
        obtain ⟨f1, f2, f3, f4, f5⟩ := classifyCase_fields p.2 (src.Path :: caps) src
        refine ⟨?_, ?_, ?_, ?_, f5⟩
        · intro a ha
          obtain ⟨h1, h2⟩ := f1 a ha
          rcases h2 with h2 | h2
          · obtain ⟨c1, hc1, hn⟩ := t1 h2
            subst hc1
            simpa [h1] using hn
          · obtain ⟨c1, c2, hc1, hn, _⟩ := t2 h2
            subst hc1
            simpa [h1] using hn
        · intro a ha
          obtain ⟨h1, h2⟩ := f2 a ha
          obtain ⟨c1, c2, hc1, _, hn⟩ := t2 (Or.inl h2)
          subst hc1
          simpa [h1] using hn
        · intro a ha
          obtain ⟨h1, h2⟩ := f3 a ha
          obtain ⟨c1, c2, hc1, _, hn⟩ := t2 (Or.inr h2)
          subst hc1
          simpa [h1] using hn
        · intro a ha
          obtain ⟨h1, h2⟩ := f4 a ha
          have h2' : p.2 = pathInsRegistered ∨ p.2 = pathInsStatus ∨ p.2 = pathInsStart ∨
              p.2 = pathInsStop := by
            rcases h2 with h | h | h
            · exact Or.inl h
            · exact Or.inr (Or.inl h)
            · exact Or.inr (Or.inr (Or.inl h))
          obtain ⟨c1, hc1, hn⟩ := t3 h2'
          subst hc1
          simpa [h1] using hn

theorem IsName.no_underscore {a : String} (h : IsName a) : '_' ∉ a.toList := by
  intro hmem
  have := h.2 '_' hmem
  revert this
  decide

theorem classify_app_iff (order : RangeOrder) (src : cp.Event) (N : String)
    (hpath : src.Path = "/apps/" ++ N ++ "/registered")
    (hkind : src.IsSet = true ∨ src.IsDel = true) :
    (((classify order.val src).1 = EvAppReg ∨ (classify order.val src).1 = EvAppUnreg) ∧
        (classify order.val src).2.App = some N) ↔ IsName N := by
  constructor
  · rintro ⟨_, hN⟩
    exact (classify_captures order src).1 N hN
  · intro hN
    rw [classify_app order src N hN hpath]
    by_cases hset : src.IsSet = true
    · simp [hset]
    · have hdel : src.IsDel = true := by
        rcases hkind with h | h
        · exact absurd h hset
        · exact h
      simp [hset, hdel]

/-- C10. The classifier enforces the identifier grammar. For every string `N`,
a set or delete mutation on `/apps/N/registered` is classified as an app event
(app-register or app-unregister with `Path.App = N`) if and only if `N` is a
non-empty string over `[A-Za-z0-9.-]`, and the same holds of every event the
enricher returns for it. Whatever the path, a string captured as app, revision
or proc name is such a name, hence contains no underscore. -/
theorem classify_identifier_grammar (order : RangeOrder) (src : cp.Event) (N : String)
    (hpath : src.Path = "/apps/" ++ N ++ "/registered")
    (hkind : src.IsSet = true ∨ src.IsDel = true) :
    ((((classify order.val src).1 = EvAppReg ∨ (classify order.val src).1 = EvAppUnreg) ∧
        (classify order.val src).2.App = some N) ↔ IsName N) ∧
    (∀ (R : Registry) (ev : Event R), enrichEvent R order src = .ok ev →
      (((ev.Typ = EvAppReg ∨ ev.Typ = EvAppUnreg) ∧ ev.Path.App = some N) ↔ IsName N)) ∧
    (∀ (other : RangeOrder) (any : cp.Event) (a : String),
      ((classify other.val any).2.App = some a ∨ (classify other.val any).2.Revision = some a ∨
        (classify other.val any).2.Proc = some a) →
      IsName a ∧ '_' ∉ a.toList) := by
  refine ⟨classify_app_iff order src N hpath hkind, ?_, ?_⟩
  · intro R ev hev
    obtain ⟨h1, h2, _⟩ := enrichEvent_ok_fields R order src ev hev
    rw [h1, h2]
    exact classify_app_iff order src N hpath hkind
  · intro other any a h
    obtain ⟨c1, c2, c3, _, _⟩ := classify_captures other any
    have hn : IsName a := by
      rcases h with h | h | h
      · exact c1 a h
      · exact c2 a h
      · exact c3 a h
    exact ⟨hn, hn.no_underscore⟩

theorem classify_identifier_grammar_witness :
    IsName "reg.cat-9" ∧ ¬ IsName "reg_cat" ∧ ¬ IsName "" ∧
    (classify RangeOrder.source.val (setMutation "/apps/reg.cat-9/registered" "now" 3)).1
      = EvAppReg ∧
    (classify RangeOrder.source.val (setMutation "/apps/reg.cat-9/registered" "now" 3)).2.App
      = some "reg.cat-9" ∧
    ¬ (((classify RangeOrder.source.val (setMutation "/apps/reg_cat/registered" "now" 3)).1
          = EvAppReg ∨
        (classify RangeOrder.source.val (setMutation "/apps/reg_cat/registered" "now" 3)).1
          = EvAppUnreg) ∧
      (classify RangeOrder.source.val (setMutation "/apps/reg_cat/registered" "now" 3)).2.App
        = some "reg_cat") ∧
    classify RangeOrder.source.val (setMutation "/apps/reg_cat/registered" "now" 3)
      = (EvUnknown, {}) := by
  have h1 := (classify_identifier_grammar RangeOrder.source
    (setMutation "/apps/reg.cat-9/registered" "now" 3) "reg.cat-9" rfl (Or.inl rfl)).1
  have h2 := (classify_identifier_grammar RangeOrder.source
    (setMutation "/apps/reg_cat/registered" "now" 3) "reg_cat" rfl (Or.inl rfl)).1
  have hn : IsName "reg.cat-9" := by decide
  have hu : ¬ IsName "reg_cat" := by decide
  refine ⟨hn, hu, by decide, ?_, (h1.mpr hn).2, fun h => hu (h2.mp h), by decide⟩
  rcases (h1.mpr hn).1 with h | h
  · exact h
  · exact absurd h (by decide)

/-! ## The `attrs` leaf of a proc -/

/-- C12. On `/apps/<A>/procs/<P>/attrs`, with names of the identifier grammar,
a set mutation whose app and proc load is enriched to the event of type
proc-attrs with `Path.App = A`, `Path.Proc = P`, every other Path field nil,
and the loaded Proc as Source; a mutation that is not a set, a delete in
particular, is returned with type UNKNOWN and a nil Source, without any
load. -/
theorem enrichEvent_procAttrs (R : Registry) (order : RangeOrder) (src : cp.Event)
    (A P : String) (hA : IsName A) (hP : IsName P)
    (hpath : src.Path = "/apps/" ++ A ++ "/procs/" ++ P ++ "/attrs") :
    (src.IsSet = true → ∀ a p, R.getApp A src = .ok a → R.getProc (some a) P src = .ok p →
      enrichEvent R order src =
        .ok { Typ := EvProcAttrs, Body := src.Body, Source := some (.proc (some p)),
              Path := { App := some A, Instance := none, Proc := some P, Revision := none,
                        Service := none },
              raw := src, Rev := src.Rev }) ∧
    (src.IsSet = false →
      enrichEvent R order src =
        .ok { Typ := EvUnknown, Body := src.Body, Source := none,
              Path := { App := some A, Instance := none, Proc := some P, Revision := none,
                        Service := none },
              raw := src, Rev := src.Rev }) := by
  have hc := classify_procAttrs order src A P hA hP hpath
  refine ⟨fun hset a p ha hp => ?_, fun hset => ?_⟩
  · simp only [hset, if_true] at hc
    exact enrichEvent_set R order src _ _ _ hc (by decide) hset
      (by simp [canonicalizeMetadata, loadApp, loadRevision, loadProc, loadInstance,
        selectSource, ha, hp])
  · simp only [hset] at hc
    exact enrichEvent_unknown R order src _ hc

theorem enrichEvent_procAttrs_witness :
    (IsName "regstar" ∧ IsName "web") ∧
    enrichEvent sampleRegistry RangeOrder.source
        (setMutation "/apps/regstar/procs/web/attrs" "limits" 11) =
      .ok { Typ := EvProcAttrs, Body := "limits", Source := some (.proc (some "web")),
            Path := { App := some "regstar", Instance := none, Proc := some "web",
                      Revision := none, Service := none },
            raw := setMutation "/apps/regstar/procs/web/attrs" "limits" 11, Rev := 11 } ∧
    enrichEvent brokenRegistry RangeOrder.source
        (delMutation "/apps/regstar/procs/web/attrs" 12) =
      .ok { Typ := EvUnknown, Body := "", Source := none,
            Path := { App := some "regstar", Instance := none, Proc := some "web",
                      Revision := none, Service := none },
            raw := delMutation "/apps/regstar/procs/web/attrs" 12, Rev := 12 } :=
  ⟨by decide,
    (enrichEvent_procAttrs sampleRegistry RangeOrder.source
      (setMutation "/apps/regstar/procs/web/attrs" "limits" 11) "regstar" "web"
      (by decide) (by decide) rfl).1 rfl "regstar" "web" rfl rfl,
    (enrichEvent_procAttrs brokenRegistry RangeOrder.source
      (delMutation "/apps/regstar/procs/web/attrs" 12) "regstar" "web"
      (by decide) (by decide) rfl).2 rfl⟩

/-! ## Paths without a classified row -/

theorem matchGreedy_lit_mismatch (P : String) (rest : List Seg) (inp : List Char)
    (h : stripPrefix P.toList inp = none) : matchGreedy (.lit P :: rest) inp = none := by
  simp only [matchGreedy, h]

theorem matchGreedy_cap_mismatch (P L : String) (cls : CharClass) (rest : List Seg)
    (A tail : List Char) (c : Char) (t : List Char)
    (hA : ∀ x ∈ A, cls.accepts x = true) (htail : tail = c :: t) (hc : cls.accepts c = false)
    (hL : stripPrefix L.toList tail = none) :
    matchGreedy (.lit P :: .cap cls :: .lit L :: rest) (P.toList ++ (A ++ tail)) = none := by
  have hdw : (A ++ tail).dropWhile cls.accepts = tail := by
    rw [List.dropWhile_append_of_pos hA, htail, List.dropWhile_cons_of_neg (by simp [hc])]
  simp only [matchGreedy, stripPrefix_append, hdw, hL]
  split <;> rfl

theorem no_match_env_leaf (A K : String) (hA : IsName A) :
    ∀ p ∈ eventPatterns, p.1.FindStringSubmatch ("/apps/" ++ A ++ "/env/" ++ K) = none := by
  have hi : stripPrefix "/instances/".toList ("/apps/" ++ A ++ "/env/" ++ K).toList = none := by
    have : ("/apps/" ++ A ++ "/env/" ++ K).toList =
        '/' :: 'a' :: ("pps/".toList ++ A.toList ++ "/env/".toList ++ K.toList) := by
      simp [toList_append]
    rw [this]
    rfl
  have hp : ("/apps/" ++ A ++ "/env/" ++ K).toList =
      "/apps/".toList ++ (A.toList ++ ("/env/".toList ++ K.toList)) := by
    simp [toList_append]
  have ht : "/env/".toList ++ K.toList = '/' :: ("env/".toList ++ K.toList) := rfl
  intro p hmem
  rw [FindStringSubmatch_table p hmem]
  simp only [eventPatterns, List.mem_cons, List.mem_singleton, List.not_mem_nil,
    or_false] at hmem
  rcases hmem with h | h | h | h | h | h | h | h <;> subst h
  · rw [hp, matchGreedy_cap_mismatch "/apps/" "/registered" charPat _ _ _ '/' _ hA.accepts ht
      (by decide) rfl]
  · rw [hp, matchGreedy_cap_mismatch "/apps/" "/revs/" charPat _ _ _ '/' _ hA.accepts ht
      (by decide) rfl]
  · rw [hp, matchGreedy_cap_mismatch "/apps/" "/procs/" charPat _ _ _ '/' _ hA.accepts ht
      (by decide) rfl]
  · rw [hp, matchGreedy_cap_mismatch "/apps/" "/procs/" charPat _ _ _ '/' _ hA.accepts ht
      (by decide) rfl]
  · rw [matchGreedy_lit_mismatch _ _ _ hi]
  · rw [matchGreedy_lit_mismatch _ _ _ hi]
  · rw [matchGreedy_lit_mismatch _ _ _ hi]
  · rw [matchGreedy_lit_mismatch _ _ _ hi]

theorem no_match_claim_leaf (I H : String) (hI : IsInsId I) :
    ∀ p ∈ eventPatterns,
      p.1.FindStringSubmatch ("/instances/" ++ I ++ "/claims/" ++ H) = none := by
  have ha : stripPrefix "/apps/".toList ("/instances/" ++ I ++ "/claims/" ++ H).toList
      = none := by
    have : ("/instances/" ++ I ++ "/claims/" ++ H).toList =
        '/' :: 'i' :: ("nstances/".toList ++ I.toList ++ "/claims/".toList ++ H.toList) := by
      simp [toList_append]
    rw [this]
    rfl
  have hp : ("/instances/" ++ I ++ "/claims/" ++ H).toList =
      "/instances/".toList ++ (I.toList ++ ("/claims/".toList ++ H.toList)) := by
    simp [toList_append]
  have ht : "/claims/".toList ++ H.toList = '/' :: ("claims/".toList ++ H.toList) := rfl
  intro p hmem
  rw [FindStringSubmatch_table p hmem]
  simp only [eventPatterns, List.mem_cons, List.mem_singleton, List.not_mem_nil,
    or_false] at hmem
  rcases hmem with h | h | h | h | h | h | h | h <;> subst h
  · rw [matchGreedy_lit_mismatch _ _ _ ha]
  · rw [matchGreedy_lit_mismatch _ _ _ ha]
  · rw [matchGreedy_lit_mismatch _ _ _ ha]
  · rw [matchGreedy_lit_mismatch _ _ _ ha]
  · rw [hp, matchGreedy_cap_mismatch "/instances/" "/registered" insIdPat _ _ _ '/' _ hI.2 ht
      (by decide) rfl]
  · rw [hp, matchGreedy_cap_mismatch "/instances/" "/status" insIdPat _ _ _ '/' _ hI.2 ht
      (by decide) rfl]
  · rw [hp, matchGreedy_cap_mismatch "/instances/" "/start" insIdPat _ _ _ '/' _ hI.2 ht
      (by decide) rfl]
  · rw [hp, matchGreedy_cap_mismatch "/instances/" "/stop" insIdPat _ _ _ '/' _ hI.2 ht
      (by decide) rfl]

/-- C14. A mutation whose path has no classified row is returned, without
error and whatever the registry, as the event of type UNKNOWN with every Path
field nil, a nil Source, and the Body and Rev of the mutation: this holds of
every path that none of the patterns matches, of the env leaves
`/apps/<A>/env/<KEY>` and the claim leaves `/instances/<I>/claims/<host>`
(which no pattern matches), and of the stop ticket `/instances/<I>/stop`,
which has a pattern but no event type. -/
theorem enrichEvent_outside_table (R : Registry) (order : RangeOrder) (src : cp.Event) :
    ((∀ p ∈ eventPatterns, p.1.FindStringSubmatch src.Path = none) →
      enrichEvent R order src =
        .ok { Typ := EvUnknown, Body := src.Body, Source := none,
              Path := { App := none, Instance := none, Proc := none, Revision := none,
                        Service := none },
              raw := src, Rev := src.Rev }) ∧
    (∀ A K : String, IsName A → src.Path = "/apps/" ++ A ++ "/env/" ++ K →
      (∀ p ∈ eventPatterns, p.1.FindStringSubmatch src.Path = none) ∧
      enrichEvent R order src =
        .ok { Typ := EvUnknown, Body := src.Body, Source := none,
              Path := { App := none, Instance := none, Proc := none, Revision := none,
                        Service := none },
              raw := src, Rev := src.Rev }) ∧
    (∀ I H : String, IsInsId I → src.Path = "/instances/" ++ I ++ "/claims/" ++ H →
      (∀ p ∈ eventPatterns, p.1.FindStringSubmatch src.Path = none) ∧
      enrichEvent R order src =
        .ok { Typ := EvUnknown, Body := src.Body, Source := none,
              Path := { App := none, Instance := none, Proc := none, Revision := none,
                        Service := none },
              raw := src, Rev := src.Rev }) ∧
    (∀ I : String, IsInsId I → src.Path = "/instances/" ++ I ++ "/stop" →
      enrichEvent R order src =
        .ok { Typ := EvUnknown, Body := src.Body, Source := none,
              Path := { App := none, Instance := none, Proc := none, Revision := none,
                        Service := none },
              raw := src, Rev := src.Rev }) := by
  have hno : (∀ p ∈ eventPatterns, p.1.FindStringSubmatch src.Path = none) →
      enrichEvent R order src =
        .ok { Typ := EvUnknown, Body := src.Body, Source := none,
              Path := { App := none, Instance := none, Proc := none, Revision := none,
                        Service := none },
              raw := src, Rev := src.Rev } :=
    fun h => enrichEvent_unknown R order src {} (classify_of_no_match order src h)
  refine ⟨hno, ?_, ?_, ?_⟩
  · intro A K hA hpath
    have h : ∀ p ∈ eventPatterns, p.1.FindStringSubmatch src.Path = none := by
      rw [hpath]
      exact no_match_env_leaf A K hA
    exact ⟨h, hno h⟩
  · intro I H hI hpath
    have h : ∀ p ∈ eventPatterns, p.1.FindStringSubmatch src.Path = none := by
      rw [hpath]
      exact no_match_claim_leaf I H hI
    exact ⟨h, hno h⟩
  · intro I hI hpath
    exact enrichEvent_unknown R order src {} (classify_insStop order src I hI hpath)

theorem enrichEvent_outside_table_witness :
    (IsName "regcat" ∧ IsInsId "7") ∧
    enrichEvent brokenRegistry RangeOrder.source (setMutation "/apps/regcat/env/KEY" "value" 6) =
      .ok { Typ := EvUnknown, Body := "value", Source := none,
            Path := { App := none, Instance := none, Proc := none, Revision := none,
                      Service := none },
            raw := setMutation "/apps/regcat/env/KEY" "value" 6, Rev := 6 } ∧
    enrichEvent brokenRegistry RangeOrder.source
        (setMutation "/instances/7/claims/10.0.0.1" "now" 7) =
      .ok { Typ := EvUnknown, Body := "now", Source := none,
            Path := { App := none, Instance := none, Proc := none, Revision := none,
                      Service := none },
            raw := setMutation "/instances/7/claims/10.0.0.1" "now" 7, Rev := 7 } ∧
    enrichEvent brokenRegistry RangeOrder.source
        (setMutation "/instances/7/stop" "10.0.0.1" 8) =
      .ok { Typ := EvUnknown, Body := "10.0.0.1", Source := none,
            Path := { App := none, Instance := none, Proc := none, Revision := none,
                      Service := none },
            raw := setMutation "/instances/7/stop" "10.0.0.1" 8, Rev := 8 } ∧
    enrichEvent brokenRegistry RangeOrder.source (delMutation "/unrelated" 9) =
      .ok { Typ := EvUnknown, Body := "", Source := none,
            Path := { App := none, Instance := none, Proc := none, Revision := none,
                      Service := none },
            raw := delMutation "/unrelated" 9, Rev := 9 } :=
  ⟨by decide,
    ((enrichEvent_outside_table brokenRegistry RangeOrder.source
      (setMutation "/apps/regcat/env/KEY" "value" 6)).2.1 "regcat" "KEY" (by decide) rfl).2,
    ((enrichEvent_outside_table brokenRegistry RangeOrder.source
      (setMutation "/instances/7/claims/10.0.0.1" "now" 7)).2.2.1 "7" "10.0.0.1"
        (by decide) rfl).2,
    (enrichEvent_outside_table brokenRegistry RangeOrder.source
      (setMutation "/instances/7/stop" "10.0.0.1" 8)).2.2.2 "7" (by decide) rfl,
    (enrichEvent_outside_table brokenRegistry RangeOrder.source
      (delMutation "/unrelated" 9)).1 (by decide)⟩

/-! ## Independence of the iteration order -/

theorem filter_length_le_one {α : Type} (l : List α) (hn : l.Nodup) (P : α → Bool)
    (hu : ∀ a ∈ l, ∀ b ∈ l, P a = true → P b = true → a = b) :
    (l.filter P).length ≤ 1 := by
  have hnf := hn.filter P
  cases hf : l.filter P with
  | nil => simp
  | cons a t =>
      cases t with
      | nil => simp
      | cons b t =>
          exfalso
          rw [hf] at hnf
          have ha : a ∈ l.filter P := by rw [hf]; simp
          have hb : b ∈ l.filter P := by rw [hf]; simp
          rw [List.mem_filter] at ha hb
          have hab := hu a ha.1 b hb.1 ha.2 hb.2
          rw [List.nodup_cons] at hnf
          exact hnf.1 (by rw [hab]; simp)

theorem classify_order_irrelevant (o1 o2 : RangeOrder) (src : cp.Event) :
    classify o1.val src = classify o2.val src := by
  rcases classify_cases o1 src with ⟨hno, hc⟩ | ⟨p, hp, m, hm, hc⟩
  · rw [hc, classify_of_no_match o2 src hno]
  · rw [hc, classify_of_match o2 src p.1 p.2 hp m hm]

/-- C15. Classification is deterministic. Every path is matched by at most
one of the eight regular expressions of `eventPatterns`; hence, for every
mutation, the classification and the whole result of `enrichEvent` (the type
and the Path fields of the event in particular) are the same for any two
iteration orders of the pattern map. -/
theorem classification_deterministic (src : cp.Event) :
    (eventPatterns.map Prod.fst).length = 8 ∧
    (∀ path : String, ∀ p ∈ eventPatterns, ∀ q ∈ eventPatterns,
      (p.1.FindStringSubmatch path).isSome = true →
      (q.1.FindStringSubmatch path).isSome = true → p = q) ∧
    (∀ path : String,
      ((eventPatterns.map Prod.fst).filter
        (fun re => (re.FindStringSubmatch path).isSome)).length ≤ 1) ∧
    (∀ o1 o2 : RangeOrder, classify o1.val src = classify o2.val src) ∧
    (∀ (R : Registry) (o1 o2 : RangeOrder), enrichEvent R o1 src = enrichEvent R o2 src) ∧
    (∀ (R : Registry) (o1 o2 : RangeOrder) (e1 e2 : Event R),
      enrichEvent R o1 src = .ok e1 → enrichEvent R o2 src = .ok e2 →
      e1.Typ = e2.Typ ∧ e1.Path = e2.Path) := by
  have huniq : ∀ path : String, ∀ p ∈ eventPatterns, ∀ q ∈ eventPatterns,
      (p.1.FindStringSubmatch path).isSome = true →
      (q.1.FindStringSubmatch path).isSome = true → p = q := by
    intro path p hp q hq h1 h2
    obtain ⟨m, hm⟩ := Option.isSome_iff_exists.mp h1
    obtain ⟨m', hm'⟩ := Option.isSome_iff_exists.mp h2
    exact match_unique p q hp hq path m m' hm hm'
  have hen : ∀ (R : Registry) (o1 o2 : RangeOrder),
      enrichEvent R o1 src = enrichEvent R o2 src := by
    intro R o1 o2
    simp only [enrichEvent, classify_order_irrelevant o1 o2 src]
  refine ⟨rfl, huniq, ?_, fun o1 o2 => classify_order_irrelevant o1 o2 src, hen, ?_⟩
  · intro path
    apply filter_length_le_one _ (by decide)
    intro a ha b hb h1 h2
    obtain ⟨p, hp, rfl⟩ := List.mem_map.mp ha
    obtain ⟨q, hq, rfl⟩ := List.mem_map.mp hb
    rw [huniq path p hp q hq h1 h2]
  · intro R o1 o2 e1 e2 h1 h2
    rw [hen R o1 o2, h2] at h1
    cases h1
    exact ⟨rfl, rfl⟩

theorem classification_deterministic_witness :
    RangeOrder.reversed.val ≠ RangeOrder.source.val ∧
    classify RangeOrder.reversed.val (setMutation "/apps/regcat/procs/web/attrs" "limits" 5) =
      (EvProcAttrs, { App := some "regcat", Proc := some "web" }) ∧
    enrichEvent sampleRegistry RangeOrder.reversed
        (setMutation "/apps/regcat/procs/web/attrs" "limits" 5) =
      enrichEvent sampleRegistry RangeOrder.source
        (setMutation "/apps/regcat/procs/web/attrs" "limits" 5) :=
  ⟨by decide, by decide,
    (classification_deterministic
      (setMutation "/apps/regcat/procs/web/attrs" "limits" 5)).2.2.2.2.1
      sampleRegistry RangeOrder.reversed RangeOrder.source⟩

/-! ## Reading a key through the client -/

/-- C13. `Client.Get` fails with `ErrKeyNotFound` exactly when the connection
answers both calls and the read reports file revision 0. In that case, and
when the connection fails in either call (the error returned is then that of
the connection), the returned value is empty and the client, its stored
revision included, is unchanged. Otherwise `Get` returns the body of the file
without error and the stored revision becomes the revision of the file,
nothing else of the client changing. -/
theorem Client_Get_contract {E : Type} (c : Client E) (path : String) :
    ((c.Get path).err = some .ErrKeyNotFound ↔
      ∃ rev body, c.conn.Rev = .ok rev ∧ c.conn.Get path rev = .ok (body, 0)) ∧
    ((c.Get path).err = some .ErrKeyNotFound →
      (c.Get path).value = "" ∧ (c.Get path).client = c) ∧
    (∀ e, c.conn.Rev = .error e →
      c.Get path = { value := "", err := some (.conn e), client := c }) ∧
    (∀ rev e, c.conn.Rev = .ok rev → c.conn.Get path rev = .error e →
      c.Get path = { value := "", err := some (.conn e), client := c }) ∧
    (∀ rev body r, c.conn.Rev = .ok rev → c.conn.Get path rev = .ok (body, r) → r ≠ 0 →
      c.Get path = { value := body, err := none,
                     client := { Addr := c.Addr, conn := c.conn, Root := c.Root, rev := r } } ∧
      (c.Get path).client.rev = r) := by
  refine ⟨?_, ?_, ?_, ?_, ?_⟩
  · unfold Client.Get
    cases hr : c.conn.Rev with
    | error e => simp
    | ok rev =>
        simp only
        cases hg : c.conn.Get path rev with
        | error e => simp [hg]
        | ok br =>
            obtain ⟨body, r⟩ := br
            simp only
            by_cases h0 : r = 0
            · subst h0
              simp [hg]
            · simp [h0, hg]
  · intro h
    unfold Client.Get at h ⊢
    cases hr : c.conn.Rev with
    | error e => exact ⟨rfl, rfl⟩
    | ok rev =>
        rw [hr] at h
        simp only at h ⊢
        cases hg : c.conn.Get path rev with
        | error e => exact ⟨rfl, rfl⟩
        | ok br =>
            obtain ⟨body, r⟩ := br
            rw [hg] at h
            simp only at h ⊢
            by_cases h0 : r = 0
            · simp [h0]
            · simp [h0] at h
  · intro e he
    simp only [Client.Get, he]
  · intro rev e hr hg
    simp only [Client.Get, hr, hg]
  · intro rev body r hr hg h0
    simp only [Client.Get, hr, hg, h0, if_false, and_self]

theorem Client_Get_contract_witness :
    sampleClient.Get "/apps/regcat/stack" =
      { value := "regcatstack", err := none,
        client := { Addr := "127.0.0.1:8046", conn := sampleConn, Root := "/visor",
                    rev := 5 } } ∧
    ((sampleClient.Get "/apps/regcat/repo-url").err = some .ErrKeyNotFound ∧
      (sampleClient.Get "/apps/regcat/repo-url").value = "" ∧
      (sampleClient.Get "/apps/regcat/repo-url").client = sampleClient) ∧
    closedClient.Get "/apps/regcat/stack" =
      { value := "", err := some (.conn "connection closed"), client := closedClient } := by
  refine ⟨?_, ?_, ?_⟩
  · exact ((Client_Get_contract sampleClient "/apps/regcat/stack").2.2.2.2
      9 "regcatstack" 5 rfl rfl (by decide)).1
  · have h : (sampleClient.Get "/apps/regcat/repo-url").err = some .ErrKeyNotFound :=
      (Client_Get_contract sampleClient "/apps/regcat/repo-url").1.mpr ⟨9, "", rfl, rfl⟩
    exact ⟨h, (Client_Get_contract sampleClient "/apps/regcat/repo-url").2.1 h⟩
  · exact (Client_Get_contract closedClient "/apps/regcat/stack").2.2.1
      "connection closed" rfl

/-! ## Parsing the instance id -/

theorem foldl_digits_ge (ds : List Char) (n : Nat) :
    n ≤ ds.foldl (fun n c => n * 10 + (c.toNat - 48)) n := by
  induction ds generalizing n with
  | nil => exact Nat.le_refl _
  | cons c cs ih =>
      simp only [List.foldl_cons]
      exact Nat.le_trans (by omega) (ih (n * 10 + (c.toNat - 48)))

theorem ParseUint_loop_ok (ds : List Char) (n : Nat)
    (hd : ∀ c ∈ ds, 48 ≤ c.toNat ∧ c.toNat ≤ 57)
    (hb : ds.foldl (fun n c => n * 10 + (c.toNat - 48)) n ≤ 2 ^ 64 - 1) :
    ParseUint.loop n ds = .ok (ds.foldl (fun n c => n * 10 + (c.toNat - 48)) n) := by
  induction ds generalizing n with
  | nil => rfl
  | cons c cs ih =>
      have hc := hd c (List.mem_cons_self _ _)
      simp only [List.foldl_cons] at hb ⊢
      have hge := foldl_digits_ge cs (n * 10 + (c.toNat - 48))
      have h1 : ¬ n ≥ (2 ^ 64 - 1) / 10 + 1 := by
        intro h
        have : (2 : Nat) ^ 64 - 1 = 18446744073709551615 := by norm_num
        omega
      have h2 : ¬ n * 10 + (c.toNat - 48) > 2 ^ 64 - 1 := by omega
      simp only [ParseUint.loop, hc.1, hc.2, decide_True, Bool.and_self, if_true, h1, h2,
        if_false]
      exact ih _ (fun x hx => hd x (List.mem_cons_of_mem _ hx)) hb

/-- The decimal numeral of a positive 64-bit integer parses to its value. -/
theorem ParseInt_of_positive (s : String) (h : IsPositiveInt64 s) :
    ParseInt s = .ok (decimalValue s.toList : Int) := by
  obtain ⟨hne, hd, _, hlt⟩ := h
  unfold ParseInt
  cases hs : s.toList with
  | nil => exact absurd hs hne
  | cons c cs =>
      rw [hs] at hd hlt
      have hc := hd c (List.mem_cons_self _ _)
      have hplus : c ≠ '+' := by
        intro h; rw [h] at hc; revert hc; decide
      have hminus : c ≠ '-' := by
        intro h; rw [h] at hc; revert hc; decide
      have hu : ParseUint (c :: cs) = .ok (decimalValue (c :: cs)) := by
        unfold ParseUint decimalValue
        simp only [List.isEmpty_cons, Bool.false_eq_true, if_false]
        apply ParseUint_loop_ok _ _ hd
        have : decimalValue (c :: cs) < 2 ^ 63 := hlt
        unfold decimalValue at this
        have h63 : (2 : Nat) ^ 63 ≤ 2 ^ 64 - 1 := by norm_num
        omega
      have hlt' : decimalValue (c :: cs) < 9223372036854775808 := by
        have h63 : (2 : Nat) ^ 63 = 9223372036854775808 := by norm_num
        omega
      simp only [hplus, hminus, or_self, if_false, hu, decide_False, Bool.false_eq_true,
        false_and, not_false_eq_true, true_and, ge_iff_le, not_le, hlt, if_true]
      simp [hlt']

theorem digitChar_toNat : ∀ d, d < 10 → (Nat.digitChar d).toNat = 48 + d := by decide

theorem toDigitsCore_spec (fuel n : Nat) (ds : List Char) (hf : n < fuel)
    (hd : ∀ c ∈ ds, 48 ≤ c.toNat ∧ c.toNat ≤ 57) :
    (∀ c ∈ Nat.toDigitsCore 10 fuel n ds, 48 ≤ c.toNat ∧ c.toNat ≤ 57) ∧
    (Nat.toDigitsCore 10 fuel n ds).foldl (fun n c => n * 10 + (c.toNat - 48)) 0 =
      ds.foldl (fun n c => n * 10 + (c.toNat - 48)) n ∧
    Nat.toDigitsCore 10 fuel n ds ≠ [] := by
  induction fuel generalizing n ds with
  | zero => omega
  | succ fuel ih =>
      have hm : n % 10 < 10 := Nat.mod_lt _ (by omega)
      have hdc := digitChar_toNat (n % 10) hm
      have hd' : ∀ c ∈ Nat.digitChar (n % 10) :: ds, 48 ≤ c.toNat ∧ c.toNat ≤ 57 := by
        intro c hc
        rcases List.mem_cons.mp hc with h | h
        · rw [h, hdc]; omega
        · exact hd c h
      simp only [Nat.toDigitsCore]
      by_cases h0 : n / 10 = 0
      · simp only [h0, if_true]
        refine ⟨hd', ?_, by simp⟩
        simp only [List.foldl_cons, hdc]
        congr 1
        omega
      · simp only [h0, if_false]
        obtain ⟨i1, i2, i3⟩ := ih (n / 10) (Nat.digitChar (n % 10) :: ds) (by omega) hd'
        refine ⟨i1, ?_, i3⟩
        rw [i2]
        simp only [List.foldl_cons, hdc]
        congr 1
        omega

/-- The decimal representation of a positive 64-bit integer is a numeral in
the sense of `IsPositiveInt64`, of that value, and is read by the id pattern. -/
theorem repr_isPositiveInt64 (n : Nat) (h0 : 0 < n) (h63 : n < 2 ^ 63) :
    IsPositiveInt64 (toString n) ∧ decimalValue (toString n).toList = n ∧
      IsInsId (toString n) := by
  have hl : (toString n).toList = Nat.toDigitsCore 10 (n + 1) n [] := rfl
  obtain ⟨h1, h2, h3⟩ := toDigitsCore_spec (n + 1) n [] (by omega) (by simp)
  have hv : decimalValue (toString n).toList = n := by
    rw [hl]
    unfold decimalValue
    rw [h2]
    rfl
  refine ⟨⟨by rw [hl]; exact h3, by rw [hl]; exact h1, by rw [hv]; exact h0,
    by rw [hv]; exact h63⟩, hv, by rw [hl]; exact h3, ?_⟩
  intro c hc
  rw [hl] at hc
  have := h1 c hc
  simp only [insIdPat, CharClass.accepts, List.any, ClassItem.accepts, Bool.or_false,
    Bool.or_eq_true, Bool.and_eq_true, decide_eq_true_eq, beq_iff_eq]
  right
  exact this

theorem path_of_render_one (path P L c1 : String)
    (h : path.toList = render [.lit P, .cap insIdPat, .lit L] [c1]) :
    path = P ++ c1 ++ L := by
  apply String.ext
  have h' : path.data = render [.lit P, .cap insIdPat, .lit L] [c1] := h
  rw [h']
  simp [render, String.data_append]

/-- A mutation classified as an instance event lies on the `registered`,
`status` or `start` leaf of `/instances/<I>/`, and the captured id `I` is a
non-empty string over `[-0-9]`. -/
theorem classify_instance_event (order : RangeOrder) (src : cp.Event)
    (ht : (classify order.val src).1 ∈
      [EvInsReg, EvInsUnreg, EvInsStart, EvInsFail, EvInsExit, EvInsLost]) :
    ∃ I, (classify order.val src).2.Instance = some I ∧ IsInsId I ∧
      (src.Path = "/instances/" ++ I ++ "/registered" ∨
        src.Path = "/instances/" ++ I ++ "/status" ∨
        src.Path = "/instances/" ++ I ++ "/start") := by
  rcases classify_cases order src with ⟨_, hc⟩ | ⟨p, hp, m, hm, hc⟩
  · rw [hc] at ht
    simp at ht
  · rw [FindStringSubmatch_table p hp] at hm
    cases hg : matchGreedy p.1 src.Path.toList with
    | none => rw [hg] at hm; cases hm
    | some caps =>
        rw [hg] at hm
        cases hm
        obtain ⟨hrender, hok⟩ := matchGreedy_sound p.1 _ caps hg
        rw [hc] at ht ⊢
        simp only [eventPatterns, List.mem_cons, List.mem_singleton, List.not_mem_nil,
          or_false] at hp
        rcases hp with hp | hp | hp | hp | hp | hp | hp | hp <;> subst hp
        · simp only [classifyCase] at ht
          split_ifs at ht <;> simp at ht
        · simp only [classifyCase] at ht
          split_ifs at ht <;> simp at ht
        · simp only [classifyCase] at ht
          split_ifs at ht <;> simp at ht
        · simp only [classifyCase] at ht
          split_ifs at ht <;> simp at ht
        · obtain ⟨c1, hcaps, h1, h2⟩ := capsOk_one _ _ _ _ hok
          subst hcaps
          exact ⟨c1, rfl, ⟨h1, h2⟩, Or.inl (path_of_render_one _ _ _ _ hrender)⟩
        · obtain ⟨c1, hcaps, h1, h2⟩ := capsOk_one _ _ _ _ hok
          subst hcaps
          refine ⟨c1, ?_, ⟨h1, h2⟩, Or.inr (Or.inl (path_of_render_one _ _ _ _ hrender))⟩
          simp only [classifyCase]
          split_ifs <;> rfl
        · obtain ⟨c1, hcaps, h1, h2⟩ := capsOk_one _ _ _ _ hok
          subst hcaps
          refine ⟨c1, ?_, ⟨h1, h2⟩, Or.inr (Or.inr (path_of_render_one _ _ _ _ hrender))⟩
          simp only [classifyCase] at ht ⊢
          split_ifs at ht ⊢
          · simp at ht
          · rfl
          · rfl
        · simp only [classifyCase] at ht
          simp at ht

theorem loadInstance_of_positive (R : Registry) (d : EventData) (s : cp.Event) (I : String)
    (hI : IsPositiveInt64 I) (hd : d.Instance = some I) :
    loadInstance R d s =
      match R.getInstance (decimalValue I.toList : Int) s with
      | .ok v => .ok (some v)
      | .error e => .error (.store e) := by
  simp only [loadInstance, hd, ParseInt_of_positive I hI]

/-- C11, as amended. For every path that the table classifies as an instance
event (the `registered`, `status` and `start` leaves of `/instances/<I>/`),
the captured id `I` is a non-empty string over `[-0-9]`. When `I` is a decimal
numeral of a positive 64-bit integer, the decimal representation of such an
integer in particular, the id pattern reads it and parsing it in
`canonicalizeMetadata` does not fail: it yields that integer, and the load of
the instance is the answer of `getInstance` for it. -/
theorem instance_id_parse (R : Registry) (order : RangeOrder) (src : cp.Event) :
    ((classify order.val src).1 ∈
        [EvInsReg, EvInsUnreg, EvInsStart, EvInsFail, EvInsExit, EvInsLost] →
      ∃ I, (classify order.val src).2.Instance = some I ∧ IsInsId I ∧
        (src.Path = "/instances/" ++ I ++ "/registered" ∨
          src.Path = "/instances/" ++ I ++ "/status" ∨
          src.Path = "/instances/" ++ I ++ "/start")) ∧
    (∀ I : String, IsPositiveInt64 I →
      ParseInt I = .ok (decimalValue I.toList : Int) ∧
      ∀ d : EventData, d.Instance = some I →
        loadInstance R d src =
          match R.getInstance (decimalValue I.toList : Int) src with
          | .ok v => .ok (some v)
          | .error e => .error (.store e)) ∧
    (∀ n : Nat, 0 < n → n < 2 ^ 63 →
      IsInsId (toString n) ∧ IsPositiveInt64 (toString n) ∧
        ParseInt (toString n) = .ok (n : Int)) := by
  refine ⟨classify_instance_event order src, ?_, ?_⟩
  · intro I hI
    exact ⟨ParseInt_of_positive I hI, fun d hd => loadInstance_of_positive R d src I hI hd⟩
  · intro n h0 h63
    obtain ⟨h1, h2, h3⟩ := repr_isPositiveInt64 n h0 h63
    refine ⟨h3, h1, ?_⟩
    rw [ParseInt_of_positive _ h1, h2]

theorem instance_id_parse_witness :
    IsPositiveInt64 "7" ∧
    (∃ I, (classify RangeOrder.source.val
          (setMutation "/instances/7/status" "running" 4)).2.Instance = some I ∧ IsInsId I ∧
        ((setMutation "/instances/7/status" "running" 4).Path
            = "/instances/" ++ I ++ "/registered" ∨
          (setMutation "/instances/7/status" "running" 4).Path
            = "/instances/" ++ I ++ "/status" ∨
          (setMutation "/instances/7/status" "running" 4).Path
            = "/instances/" ++ I ++ "/start")) ∧
    ParseInt "7" = .ok 7 ∧
    ParseInt (toString 9223372036854775807) = .ok 9223372036854775807 := by
  have h := instance_id_parse sampleRegistry RangeOrder.source
    (setMutation "/instances/7/status" "running" 4)
  exact ⟨by decide, h.1 (by decide), (h.2.1 "7" (by decide)).1,
    (h.2.2 9223372036854775807 (by norm_num) (by norm_num)).2.2⟩

/-- The claim C11 as stated fails: the path `/instances/1-2/registered` is
classified as an instance event with the captured id `1-2`, which is not a
numeral, and parsing it fails, so the enricher returns an error; likewise the
id `-`, and the id `9223372036854775808`, which is out of range. -/
theorem instance_id_parse_counterexample :
    classify RangeOrder.source.val
        (setMutation "/instances/1-2/registered" "regcat stable web default" 8) =
      (EvInsReg, { Instance := some "1-2" }) ∧
    ¬ IsPositiveInt64 "1-2" ∧
    ParseInt "1-2" = .error .ErrSyntax ∧
    canonicalizeMetadata sampleRegistry EvInsReg { Instance := some "1-2" }
        (setMutation "/instances/1-2/registered" "regcat stable web default" 8) =
      .error (.num "1-2" .ErrSyntax) ∧
    enrichEvent sampleRegistry RangeOrder.source
        (setMutation "/instances/1-2/registered" "regcat stable web default" 8) =
      .error (.canonicalizing
        (setMutation "/instances/1-2/registered" "regcat stable web default" 8)
        (.num "1-2" .ErrSyntax)) ∧
    classify RangeOrder.source.val (setMutation "/instances/-/status" "running" 9) =
      (EvInsStart, { Instance := some "-" }) ∧
    ParseInt "-" = .error .ErrSyntax ∧
    classify RangeOrder.source.val
        (setMutation "/instances/9223372036854775808/status" "running" 10) =
      (EvInsStart, { Instance := some "9223372036854775808" }) ∧
    ParseInt "9223372036854775808" = .error .ErrRange :=
  ⟨by decide, by decide, by rfl, by rfl, by rfl, by decide, by rfl, by decide, by rfl⟩

end Visor
